import Mathlib

/-!
# cob_driver: safety controller frame layouts and LED sector indexing

A shallow embedding of

* `cob_safety_controller/common/src/safety_controller_common.cpp`: the packed bit-field
  structs `FlexiInput` and `FlexiOutput` and the member functions of
  `safety_controller_impl`;
* `cob_light/ros/src/light_approximation.cpp`: the index arithmetic of `timerCallback`.

Values of type `float` that the index arithmetic depends on are exact rationals, every
operation being followed by rounding to the nearest binary32 value (ties to even).

Bytes are natural numbers, a stored byte is reduced modulo 256.  A struct of `n` bytes is a
function `Fin n → Nat`.  Bit-fields are allocated in declaration order starting at the least
significant bit of the first byte (the GCC rule for little-endian targets, which is what the
`byte.bit` comments of the source assume).
-/

set_option autoImplicit false
set_option linter.unusedVariables false

namespace SafetyController

/-! ## Bit-field access inside one byte -/

/-- The mask `(1 << w) - 1` of a field that is `w` bits wide. -/
def fieldMask (w : Nat) : Nat := 2 ^ w - 1

/-- Load of the `w`-bit field at bit `off` of the byte `b`: shift down, then mask. -/
def getBits (b off w : Nat) : Nat := (b >>> off) &&& fieldMask w

/-- Store of `v` into the `w`-bit field at bit `off` of the byte `b`: the field is cleared,
the value is masked to the width and or-ed in, and the result is kept as one byte. -/
def setBits (b off w v : Nat) : Nat :=
  ((b &&& (255 ^^^ (fieldMask w <<< off))) ||| ((v &&& fieldMask w) <<< off)) % 256

/-! ## Struct declarations and their layout -/

/-- One declarator `uint8_t name : width;` of a struct; `name` is `none` for an unnamed
(reserved) bit-field. -/
structure BitField (σ : Type) where
  name : Option σ
  width : Nat

/-- The declarator `uint8_t s : w;`. -/
def member {σ : Type} (s : σ) (w : Nat) : BitField σ := ⟨some s, w⟩

/-- The unnamed declarator `uint8_t : w;`. -/
def reserved {σ : Type} (w : Nat) : BitField σ := ⟨none, w⟩

/-- Where a member lives: bit offset from the start of the struct, and width in bits. -/
structure FieldPos where
  offset : Nat
  width : Nat
  deriving DecidableEq, Repr

/-- Allocation of bit-fields in declaration order: `acc` is the number of bits already
allocated; the first declarator named `s` is found at the running offset. -/
def locate {σ : Type} [DecidableEq σ] : List (BitField σ) → σ → Nat → Option FieldPos
  | [], _, _ => none
  | d :: ds, s, acc =>
    if d.name = some s then some ⟨acc, d.width⟩ else locate ds s (acc + d.width)

/-- Number of bits a declaration list allocates. -/
def structBits {σ : Type} (decls : List (BitField σ)) : Nat :=
  (decls.map (fun d => d.width)).sum

/-- The `sizeof` of a packed struct of `uint8_t` bit-fields, in bytes. -/
def structSize {σ : Type} (decls : List (BitField σ)) : Nat :=
  (structBits decls + 7) / 8

/-- The bits `offset .. offset + width - 1` of one field do not cross a byte boundary. -/
@[reducible] def FieldPos.inByte (p : FieldPos) : Prop := p.offset % 8 + p.width ≤ 8

/-- Two fields have no bit in common. -/
@[reducible] def FieldPos.disjoint (p q : FieldPos) : Prop :=
  q.offset + q.width ≤ p.offset ∨ p.offset + p.width ≤ q.offset

/-! ## Raw frames -/

/-- A struct (or payload) of `n` bytes. -/
abbrev Frame (n : Nat) := Fin n → Nat

/-- Byte `i` of a frame (0 outside the struct). -/
def readByte {n : Nat} (fr : Frame n) (i : Nat) : Nat :=
  if h : i < n then fr ⟨i, h⟩ else 0

/-- The frame with byte `i` replaced by `x`. -/
def writeByte {n : Nat} (fr : Frame n) (i : Nat) (x : Nat) : Frame n :=
  fun k => if k.val = i then x else fr k

/-- Bit `bit` of byte `byte` of a frame. -/
def frameBit {n : Nat} (fr : Frame n) (byte bit : Nat) : Bool :=
  (readByte fr byte).testBit bit

/-- Read of the member at position `p`. -/
def readField {n : Nat} (fr : Frame n) (p : FieldPos) : Nat :=
  getBits (readByte fr (p.offset / 8)) (p.offset % 8) p.width

/-- Assignment of `v` to the member at position `p`. -/
def writeField {n : Nat} (fr : Frame n) (p : FieldPos) (v : Nat) : Frame n :=
  writeByte fr (p.offset / 8) (setBits (readByte fr (p.offset / 8)) (p.offset % 8) p.width v)

/-- The call `memset(ptr, value, num)` on a struct of `n` bytes: the first `num` bytes become
`(unsigned char) value`. -/
def memset {n : Nat} (fr : Frame n) (value num : Nat) : Frame n :=
  fun k => if k.val < num then value % 256 else fr k

/-! ## struct FlexiInput -/

/-- The named members of `struct FlexiInput`. -/
inductive InputSignal
  | em_stop_ur10_ok
  | ext_permission
  | enabling_switch_pressed
  | manual_mode
  | base_active
  | lift_active
  | arm_active
  | em_can_recover
  | em_stop_ok
  | hardware_stop_ok
  | laser_stop_ok
  | unlocked
  | connection_ok
  | arm_locked
  | edm_err_base
  | edm_err_lift
  | edm_err_arm
  | software_stop_ok
  | arm_in_laser
  | xtio1_input_ok
  | xtio2_input_ok
  | gateway_input_ok
  | xtio1_output_ok
  | xtio2_output_ok
  | gateway_output_ok
  | laser_front_ok
  | laser_rear_ok
  deriving DecidableEq, Repr, Fintype

namespace FlexiInput

/-- The declarators of `struct FlexiInput`, in source order (the trailing remark is the
`byte.bit` comment of the source line). -/
def decl : List (BitField InputSignal) := [
  reserved 1,  -- 0.0
  reserved 1,  -- 0.1
  reserved 1,  -- 0.2
  reserved 1,  -- 0.3
  reserved 1,  -- 0.4
  reserved 1,  -- 0.5
  member .em_stop_ur10_ok 1,  -- 0.6
  reserved 1,  -- 0.7

  member .ext_permission 1,  -- 1.0
  reserved 1,  -- 1.1
  member .enabling_switch_pressed 1,  -- 1.2
  reserved 1,  -- 1.3
  reserved 1,  -- 1.4
  reserved 1,  -- 1.5
  member .manual_mode 1,  -- 1.6
  reserved 1,  -- 1.7

  member .base_active 1,  -- 2.0
  member .lift_active 1,  -- 2.1
  member .arm_active 1,  -- 2.2
  member .em_can_recover 1,  -- 2.3
  member .em_stop_ok 1,  -- 2.4
  member .hardware_stop_ok 1,  -- 2.5
  member .laser_stop_ok 1,  -- 2.6
  member .unlocked 1,  -- 2.7

  member .connection_ok 1,  -- 3.0
  member .arm_locked 1,  -- 3.1
  member .edm_err_base 1,  -- 3.2
  member .edm_err_lift 1,  -- 3.3
  member .edm_err_arm 1,  -- 3.4
  member .software_stop_ok 1,  -- 3.5
  member .arm_in_laser 1,  -- 3.6
  reserved 1,  -- 3.7

  member .xtio1_input_ok 1,  -- 4.0
  member .xtio2_input_ok 1,  -- 4.1
  reserved 1,  -- 4.2
  reserved 1,  -- 4.3
  reserved 1,  -- 4.4
  reserved 1,  -- 4.5
  reserved 1,  -- 4.6
  reserved 1,  -- 4.7

  reserved 1,  -- 5.0
  reserved 1,  -- 5.1
  reserved 1,  -- 5.2
  reserved 1,  -- 5.3
  member .gateway_input_ok 1,  -- 5.4
  reserved 1,  -- 5.5
  reserved 1,  -- 5.6
  reserved 1,  -- 5.7

  member .xtio1_output_ok 1,  -- 6.0
  member .xtio2_output_ok 1,  -- 6.1
  reserved 1,  -- 6.2
  reserved 1,  -- 6.3
  reserved 1,  -- 6.4
  reserved 1,  -- 6.5
  reserved 1,  -- 6.6
  reserved 1,  -- 6.7

  reserved 1,  -- 7.0
  reserved 1,  -- 7.1
  reserved 1,  -- 7.2
  reserved 1,  -- 7.3
  member .gateway_output_ok 1,  -- 7.4
  reserved 1,  -- 7.5
  reserved 1,  -- 7.6
  reserved 1,  -- 7.7

  reserved 1,  -- 8.0
  reserved 1,  -- 8.1
  reserved 1,  -- 8.2
  reserved 1,  -- 8.3
  member .laser_front_ok 1,  -- 8.4
  reserved 1,  -- 8.5
  reserved 1,  -- 8.6
  reserved 1,  -- 8.7

  reserved 1,  -- 9.0
  reserved 1,  -- 9.1
  reserved 1,  -- 9.2
  reserved 1,  -- 9.3
  member .laser_rear_ok 1,  -- 9.4
  reserved 1,  -- 9.5
  reserved 1,  -- 9.6
  reserved 1]  -- 9.7

/-- The `byte.bit` comment written in front of each named member. -/
def comment : InputSignal → Nat × Nat
  | .em_stop_ur10_ok => (0, 6)
  | .ext_permission => (1, 0)
  | .enabling_switch_pressed => (1, 2)
  | .manual_mode => (1, 6)
  | .base_active => (2, 0)
  | .lift_active => (2, 1)
  | .arm_active => (2, 2)
  | .em_can_recover => (2, 3)
  | .em_stop_ok => (2, 4)
  | .hardware_stop_ok => (2, 5)
  | .laser_stop_ok => (2, 6)
  | .unlocked => (2, 7)
  | .connection_ok => (3, 0)
  | .arm_locked => (3, 1)
  | .edm_err_base => (3, 2)
  | .edm_err_lift => (3, 3)
  | .edm_err_arm => (3, 4)
  | .software_stop_ok => (3, 5)
  | .arm_in_laser => (3, 6)
  | .xtio1_input_ok => (4, 0)
  | .xtio2_input_ok => (4, 1)
  | .gateway_input_ok => (5, 4)
  | .xtio1_output_ok => (6, 0)
  | .xtio2_output_ok => (6, 1)
  | .gateway_output_ok => (7, 4)
  | .laser_front_ok => (8, 4)
  | .laser_rear_ok => (9, 4)

/-- Every named member, in declaration order. -/
def signals : List InputSignal :=
  [.em_stop_ur10_ok, .ext_permission, .enabling_switch_pressed, .manual_mode, .base_active,
   .lift_active, .arm_active, .em_can_recover, .em_stop_ok, .hardware_stop_ok, .laser_stop_ok,
   .unlocked, .connection_ok, .arm_locked, .edm_err_base, .edm_err_lift, .edm_err_arm,
   .software_stop_ok, .arm_in_laser, .xtio1_input_ok, .xtio2_input_ok, .gateway_input_ok,
   .xtio1_output_ok, .xtio2_output_ok, .gateway_output_ok, .laser_front_ok, .laser_rear_ok]

/-- The value of `sizeof(FlexiInput)`. -/
abbrev size : Nat := 10

/-- Position of a named member under the allocation rule. -/
def pos (s : InputSignal) : FieldPos := (locate decl s 0).getD ⟨0, 0⟩

/-- The expression `x.s` for `x : FlexiInput`. -/
def get (fr : Frame size) (s : InputSignal) : Nat := readField fr (pos s)

/-- The statement `x.s = v` for `x : FlexiInput`. -/
def set (fr : Frame size) (s : InputSignal) (v : Nat) : Frame size := writeField fr (pos s) v

end FlexiInput

/-! ## struct FlexiOutput -/

/-- The named members of `struct FlexiOutput`. -/
inductive OutputField
  | laser_case
  | far_front
  | far_left
  | far_right
  | enable_base
  | enable_torso
  deriving DecidableEq, Repr, Fintype

namespace FlexiOutput

/-- The declarators of `struct FlexiOutput`, in source order. -/
def decl : List (BitField OutputField) := [
  member .laser_case 5,  -- 0.0
  member .far_front 1,  -- 0.5
  member .far_left 1,  -- 0.6
  member .far_right 1,  -- 0.7

  member .enable_base 1,  -- 1.0
  member .enable_torso 1,  -- 1.1
  reserved 1,  -- 1.2
  reserved 1,  -- 1.3
  reserved 1,  -- 1.4
  reserved 1,  -- 1.5
  reserved 1,  -- 1.6
  reserved 1]  -- 1.7

/-- The `byte.bit` comment written in front of each named member. -/
def comment : OutputField → Nat × Nat
  | .laser_case => (0, 0)
  | .far_front => (0, 5)
  | .far_left => (0, 6)
  | .far_right => (0, 7)
  | .enable_base => (1, 0)
  | .enable_torso => (1, 1)

/-- Every named member, in declaration order. -/
def fields : List OutputField :=
  [.laser_case, .far_front, .far_left, .far_right, .enable_base, .enable_torso]

/-- The value of `sizeof(FlexiOutput)`. -/
abbrev size : Nat := 2

/-- Position of a named member under the allocation rule. -/
def pos (f : OutputField) : FieldPos := (locate decl f 0).getD ⟨0, 0⟩

/-- The expression `x.f` for `x : FlexiOutput`. -/
def get (fr : Frame size) (f : OutputField) : Nat := readField fr (pos f)

/-- The statement `x.f = v` for `x : FlexiOutput`. -/
def set (fr : Frame size) (f : OutputField) (v : Nat) : Frame size := writeField fr (pos f) v

end FlexiOutput

/-! ## Logical records -/

/-- One boolean per named `FlexiInput` signal. -/
abbrev InputRecord := InputSignal → Bool

/-- The named members of a `FlexiOutput`: the zone selector and five flags. -/
structure OutputRecord where
  laser_case : Nat
  far_front : Bool
  far_left : Bool
  far_right : Bool
  enable_base : Bool
  enable_torso : Bool
  deriving DecidableEq, Repr

/-- The number assigned to member `f` when the record is written out. -/
def OutputRecord.value (r : OutputRecord) : OutputField → Nat
  | .laser_case => r.laser_case
  | .far_front => r.far_front.toNat
  | .far_left => r.far_left.toNat
  | .far_right => r.far_right.toNat
  | .enable_base => r.enable_base.toNat
  | .enable_torso => r.enable_torso.toNat

/-- Decoding a 10-byte frame: the frame is viewed as a `FlexiInput` and every named member is
read. -/
def decodeInput (fr : Frame FlexiInput.size) : InputRecord :=
  fun s => FlexiInput.get fr s != 0

/-- Encoding an input record: every named member of a zeroed `FlexiInput` is assigned, in
declaration order. -/
def encodeInput (r : InputRecord) : Frame FlexiInput.size :=
  FlexiInput.signals.foldl (fun fr s => FlexiInput.set fr s (r s).toNat) (fun _ => 0)

/-- Decoding a 2-byte frame: the frame is viewed as a `FlexiOutput` and every named member is
read. -/
def decodeOutput (fr : Frame FlexiOutput.size) : OutputRecord where
  laser_case := FlexiOutput.get fr .laser_case
  far_front := FlexiOutput.get fr .far_front != 0
  far_left := FlexiOutput.get fr .far_left != 0
  far_right := FlexiOutput.get fr .far_right != 0
  enable_base := FlexiOutput.get fr .enable_base != 0
  enable_torso := FlexiOutput.get fr .enable_torso != 0

/-- Encoding an output record: every named member of a zeroed `FlexiOutput` is assigned, in
declaration order. -/
def encodeOutput (r : OutputRecord) : Frame FlexiOutput.size :=
  FlexiOutput.fields.foldl (fun fr f => FlexiOutput.set fr f (r.value f)) (fun _ => 0)

/-! ## class safety_controller_impl -/

/-- The class `safety_controller_config`. -/
structure safety_controller_config where
  port : String
  host : String
  deriving DecidableEq, Repr

/-- The class `safety_controller_data`; of `in_odometry` only the two components that `update`
reads are kept (`twist.twist.linear.x` and `.y`), `R` stands for `double`. -/
structure safety_controller_data (R : Type) where
  in_odometry_linear_x : R
  in_odometry_linear_y : R
  out_marker_active : Bool

/-- The operations on `double` that `update` calls. -/
structure DoubleOps (R : Type) where
  atan2 : R → R → R
  sqrt : R → R
  add : R → R → R
  mul : R → R → R

/-- The payload type `flexi::FlexiInputData`, whose array `data` has `cap` bytes. -/
structure FlexiInputData (cap : Nat) where
  data : Frame cap

/-- The data members `flexi_input_` and `flexi_output_` of `safety_controller_impl`. -/
structure safety_controller_impl where
  flexi_input_ : Frame FlexiInput.size
  flexi_output_ : Frame FlexiOutput.size

/-- The constructor `safety_controller_impl()`.  `prior` is the content of the object's storage before the constructor
body runs (the members have no initialiser).  Both `memset` calls pass the struct size as the
fill value and 0 as the byte count, as written in the source. -/
def safety_controller_impl.construct (prior : safety_controller_impl) :
    safety_controller_impl :=
  let flexi_output_ := memset prior.flexi_output_ FlexiOutput.size 0
  let flexi_input_ := memset prior.flexi_input_ FlexiInput.size 0
  let flexi_output_ := FlexiOutput.set flexi_output_ .enable_base 1
  let flexi_output_ := FlexiOutput.set flexi_output_ .enable_torso 1
  { flexi_input_ := flexi_input_, flexi_output_ := flexi_output_ }

/-- The result of `*(FlexiInput*)input.data`: the first `sizeof(FlexiInput)` bytes of the
payload.  The hypothesis is the `BOOST_STATIC_ASSERT_MSG` of the source. -/
def FlexiInputData.asFlexiInput {cap : Nat} (h : FlexiInput.size ≤ cap)
    (input : FlexiInputData cap) : Frame FlexiInput.size :=
  fun k => input.data ⟨k.val, Nat.lt_of_lt_of_le k.isLt h⟩

/-- The member function `handle_input` (the mutex is not modelled: runs are sequential). -/
def safety_controller_impl.handle_input {cap : Nat} (h : FlexiInput.size ≤ cap)
    (self : safety_controller_impl) (input : FlexiInputData cap) : safety_controller_impl :=
  { self with flexi_input_ := input.asFlexiInput h }

/-- The member function `update`: two locals are computed from the odometry and dropped; no
member of the object and no field of `data` is assigned. -/
def safety_controller_impl.update {R : Type} (ops : DoubleOps R)
    (self : safety_controller_impl) (data : safety_controller_data R)
    (config : safety_controller_config) :
    safety_controller_impl × safety_controller_data R :=
  let direction := ops.atan2 data.in_odometry_linear_y data.in_odometry_linear_x
  let lin_velocity := ops.sqrt (ops.add
    (ops.mul data.in_odometry_linear_y data.in_odometry_linear_y)
    (ops.mul data.in_odometry_linear_x data.in_odometry_linear_x))
  (self, data)

/-- The member function `callback_set_mode`: its body is `return true;`. -/
def safety_controller_impl.callback_set_mode (self : safety_controller_impl)
    (req : Int) (config : safety_controller_config) : safety_controller_impl × Bool :=
  (self, true)

/-- One call made on the object after construction. -/
inductive Op (R : Type) (cap : Nat) where
  | handle_input (input : FlexiInputData cap)
  | update (data : safety_controller_data R) (config : safety_controller_config)
  | callback_set_mode (req : Int) (config : safety_controller_config)

/-- The state after one call. -/
def step {R : Type} {cap : Nat} (ops : DoubleOps R) (h : FlexiInput.size ≤ cap)
    (self : safety_controller_impl) : Op R cap → safety_controller_impl
  | .handle_input input => self.handle_input h input
  | .update data config => (self.update ops data config).1
  | .callback_set_mode req config => (self.callback_set_mode req config).1

/-- The state after a sequence of calls, made one after the other. -/
def run {R : Type} {cap : Nat} (ops : DoubleOps R) (h : FlexiInput.size ≤ cap)
    (self : safety_controller_impl) (calls : List (Op R cap)) : safety_controller_impl :=
  calls.foldl (step ops h) self

/-- The payload a call delivers: that of a `handle_input` call, none for the other calls. -/
def Op.payload {R : Type} {cap : Nat} : Op R cap → Option (FlexiInputData cap)
  | .handle_input input => some input
  | .update _ _ => none
  | .callback_set_mode _ _ => none

/-- The payload of the most recent `handle_input` call of a sequence, if there is one. -/
def lastDelivered {R : Type} {cap : Nat} : List (Op R cap) → Option (FlexiInputData cap)
  | [] => none
  | c :: cs => (lastDelivered cs).orElse (fun _ => c.payload)

/-! ## configure and the transport collaborator -/

/-- A call made on `flexi_client_`. -/
inductive TransportCall where
  | connect (host port : String)
  | start_worker
  deriving DecidableEq, Repr

/-- The value of `EXIT_SUCCESS` from `<cstdlib>`. -/
def EXIT_SUCCESS : Nat := 0

/-- The value of `EXIT_FAILURE` from `<cstdlib>`. -/
def EXIT_FAILURE : Nat := 1

/-- What a call of `configure` did: the calls made on the transport, in order, and the status
passed to `exit` (`none` when `configure` returned to its caller). -/
structure ConfigureResult where
  calls : List TransportCall
  exited : Option Nat
  deriving DecidableEq, Repr

/-- The member function `configure`; `connect` is the answer of `flexi_client_->connect`. -/
def configure (connect : String → String → Bool) (config : safety_controller_config) :
    ConfigureResult :=
  if !connect config.host config.port then
    { calls := [.connect config.host config.port], exited := some EXIT_FAILURE }
  else
    { calls := [.connect config.host config.port, .start_worker, .start_worker],
      exited := none }

/-- How many times `start_worker` occurs in a list of transport calls. -/
def startCount (calls : List TransportCall) : Nat :=
  calls.count .start_worker

end SafetyController

namespace SafetyController

/-! ## Concrete inputs on which the model is run -/

/-- An interpretation of the `double` operations over the integers. -/
def sampleDoubleOps : DoubleOps Int where
  atan2 := fun y x => y - x
  sqrt := fun x => (Nat.sqrt x.toNat : Int)
  add := fun x y => x + y
  mul := fun x y => x * y

/-- Storage in which every byte is `0x00` before the constructor runs. -/
def zeroStorage : safety_controller_impl :=
  { flexi_input_ := fun _ => 0, flexi_output_ := fun _ => 0 }

/-- Storage in which every byte is `0xFF` before the constructor runs. -/
def onesStorage : safety_controller_impl :=
  { flexi_input_ := fun _ => 255, flexi_output_ := fun _ => 255 }

/-- An input record with `em_stop_ok = 0`, the other stop, connection and health signals 1
and no lock or error flag raised. -/
def emStopRecord : InputRecord
  | .em_stop_ok => false
  | .arm_locked => false
  | .edm_err_base => false
  | .edm_err_lift => false
  | .edm_err_arm => false
  | .manual_mode => false
  | .arm_in_laser => false
  | _ => true

/-- The payload that carries `emStopRecord`, for a transport whose payload has 10 bytes. -/
def emStopPayload : FlexiInputData 10 := { data := encodeInput emStopRecord }

/-- A freshly constructed object to which `emStopPayload` has been delivered. -/
def emStopState : safety_controller_impl :=
  (safety_controller_impl.construct zeroStorage).handle_input (Nat.le_refl 10) emStopPayload

/-- An odometry sample with linear velocity (3, 4). -/
def sampleData : safety_controller_data Int :=
  { in_odometry_linear_x := 3, in_odometry_linear_y := 4, out_marker_active := false }

/-- A configuration naming a flexisoft gateway. -/
def sampleConfig : safety_controller_config := { port := "9100", host := "192.168.0.1" }

/-- A payload of 10 bytes `0xFF`. -/
def onesPayload : FlexiInputData 10 := { data := fun _ => 255 }

/-- A sequence of calls in which `emStopPayload` is the payload delivered last. -/
def sampleCalls : List (Op Int 10) :=
  [.update sampleData sampleConfig, .handle_input onesPayload, .callback_set_mode 1 sampleConfig,
   .handle_input emStopPayload, .update sampleData sampleConfig]

end SafetyController

namespace LightApproximation

/-! ## light_approximation.cpp: timerCallback -/

/-- The constant `NUM_LEDS`. -/
def NUM_LEDS : Int := 58

/-- The operations on `float` and on colours that `timerCallback` calls; `F` stands for
`float`, `C` for `std_msgs::ColorRGBA`. -/
structure FloatOps (F C : Type) where
  /-- The literal `0.0`. -/
  zero : F
  /-- The value `std::numeric_limits<float>::max()`. -/
  max : F
  /-- The function `std::min`. -/
  min : F → F → F
  /-- The test `x != 0`. -/
  neZero : F → Bool
  add : F → F → F
  /-- The division `x / 2.0f`. -/
  half : F → F
  /-- From `mean` to the colour stored: the clamp, `interpolateColor(c_red, c_green, t)` and
  the copy into a `ColorRGBA`. -/
  color : F → C

/-- The integer nearest to `y`, the even one of the two when `y` lies half-way between
them. -/
def roundNearestEven (y : ℚ) : ℤ :=
  let f := ⌊y⌋
  if y - f < 1 / 2 then f
  else if 1 / 2 < y - f then f + 1
  else if f % 2 = 0 then f else f + 1

/-- The binary32 (`float`) value nearest to a non-negative rational `x`, ties to even: `x` is
scaled by the power of two that brings it into `2^23 .. 2^24`, rounded to an integer (24
significant bits) and scaled back.  Overflow and subnormal values are left out: the values
rounded here lie between `1 / 58` and `2^64`. -/
def roundFloat (x : ℚ) : ℚ :=
  if x ≤ 0 then 0
  else
    let e : ℤ := Int.log 2 x - 23
    (roundNearestEven (x / (2 : ℚ) ^ e) : ℚ) * (2 : ℚ) ^ e

/-- The value of `(int)sector_size` for a scan of `n` ranges, where
`sector_size = (float)ranges.size() / (float)NUM_LEDS`: both conversions and the division are
rounded to binary32, the conversion to `int` drops the fraction. -/
def sectorWidth (n : Nat) : Int :=
  ⌊roundFloat (roundFloat (n : ℚ) / roundFloat ((NUM_LEDS : ℤ) : ℚ))⌋

/-- A checked element access `v.at(index)` made by `timerCallback`. -/
inductive Access where
  | ranges_at (j : Int)
  | sectors_at (i : Int)
  | colors_at (i : Int)
  deriving DecidableEq, Repr

/-- The machine state of `timerCallback`: the accesses made so far, the two vectors written,
and whether `std::out_of_range` has been thrown. -/
structure Run (F C : Type) where
  log : List Access
  sectors : List F
  colors : List C
  thrown : Bool

/-- The check of `std::vector::at`: the index (converted to `size_t`) must be below the
size. -/
def inRange {α : Type} (v : List α) (index : Int) : Bool :=
  decide (0 ≤ index) && decide (index < (v.length : Int))

/-- The values `lo, lo + 1, ..., hi - 1` taken by the counter of
`for (int k = lo; k < hi; k++)`. -/
def forRange (lo hi : Int) : List Int :=
  (List.range (hi - lo).toNat).map (fun (k : Nat) => lo + (k : Int))

/-- The accumulator of the inner loop: the accesses made, the running minimum `sum`, and
whether `ranges.at` has thrown. -/
structure Inner (F : Type) where
  log : List Access
  sum : F
  thrown : Bool

/-- One pass through the body of the inner loop, `if (ranges.at(j) != 0) sum =
std::min(ranges.at(j), sum);`. -/
def innerBody {F C : Type} (ops : FloatOps F C) (ranges : List F) (st : Inner F) (j : Int) :
    Inner F :=
  if st.thrown then st
  else if inRange ranges j then
    let r := ranges.getD j.toNat ops.zero
    if ops.neZero r then
      { st with log := st.log ++ [.ranges_at j, .ranges_at j], sum := ops.min r st.sum }
    else
      { st with log := st.log ++ [.ranges_at j] }
  else
    { st with log := st.log ++ [.ranges_at j], thrown := true }

/-- One pass through the body of the first outer loop: sector `i` becomes the least non-zero
range among `ranges[i * w .. (i + 1) * w - 1]`, where `w` is `(int)sector_size`. -/
def sectorBody {F C : Type} (ops : FloatOps F C) (ranges : List F) (w : Int)
    (st : Run F C) (i : Int) : Run F C :=
  if st.thrown then st
  else
    let inner := (forRange (i * w) ((i + 1) * w)).foldl (innerBody ops ranges)
      { log := st.log, sum := ops.max, thrown := false }
    if inner.thrown then { st with log := inner.log, thrown := true }
    else if inRange st.sectors i then
      { st with log := inner.log ++ [.sectors_at i],
                sectors := st.sectors.set i.toNat inner.sum }
    else
      { st with log := inner.log ++ [.sectors_at i], thrown := true }

/-- One pass through the body of the second outer loop: the mean of sector `i` and its
neighbour is turned into the colour of LED `i`. -/
def colorBody {F C : Type} (ops : FloatOps F C) (st : Run F C) (i : Int) : Run F C :=
  if st.thrown then st
  else if i = 0 then
    -- mean = sectors.back()+sectors.at(i)/2.0f;
    if inRange st.sectors i then
      let mean := ops.add (st.sectors.getLastD ops.zero) (ops.half (st.sectors.getD i.toNat ops.zero))
      if inRange st.colors i then
        { st with log := st.log ++ [.sectors_at i, .colors_at i],
                  colors := st.colors.set i.toNat (ops.color mean) }
      else { st with log := st.log ++ [.sectors_at i, .colors_at i], thrown := true }
    else { st with log := st.log ++ [.sectors_at i], thrown := true }
  else
    -- mean = (sectors.at(i)+sectors.at(i-1))/2.0f;
    if inRange st.sectors i then
      if inRange st.sectors (i - 1) then
        let mean := ops.half (ops.add (st.sectors.getD i.toNat ops.zero)
          (st.sectors.getD (i - 1).toNat ops.zero))
        if inRange st.colors i then
          { st with log := st.log ++ [.sectors_at i, .sectors_at (i - 1), .colors_at i],
                    colors := st.colors.set i.toNat (ops.color mean) }
        else
          { st with log := st.log ++ [.sectors_at i, .sectors_at (i - 1), .colors_at i],
                    thrown := true }
      else { st with log := st.log ++ [.sectors_at i, .sectors_at (i - 1)], thrown := true }
    else { st with log := st.log ++ [.sectors_at i], thrown := true }

/-- The state in which the first loop starts: `sectors.assign(NUM_LEDS, 0.0)`. -/
def Run.start {F C : Type} (ops : FloatOps F C) (colors : List C) : Run F C where
  log := []
  sectors := List.replicate NUM_LEDS.toNat ops.zero
  colors := colors
  thrown := false

/-- The body of `timerCallback` for a scan `ranges`, the colours `colors` of `mode_msg` before
the call, and the value `w` of `(int)sector_size`. -/
def timerCallbackWith {F C : Type} (ops : FloatOps F C) (ranges : List F) (colors : List C)
    (w : Int) : Run F C :=
  let afterSectors := (forRange 0 NUM_LEDS).foldl (sectorBody ops ranges w) (Run.start ops colors)
  (forRange 0 NUM_LEDS).foldl (colorBody ops) afterSectors

/-- The function `timerCallback`, the width being the one the source computes:
`(int)sector_size` with `sector_size` a binary32 quotient. -/
def timerCallback {F C : Type} (ops : FloatOps F C) (ranges : List F) (colors : List C) :
    Run F C :=
  timerCallbackWith ops ranges colors (sectorWidth ranges.length)

/-- Whether an access passes the bounds check, for a scan of `n` ranges and vectors `sectors`
and `mode_msg.colors` of `NUM_LEDS` elements. -/
def Access.inBounds (n : Nat) : Access → Prop
  | .ranges_at j => 0 ≤ j ∧ j < (n : Int)
  | .sectors_at i => 0 ≤ i ∧ i < NUM_LEDS
  | .colors_at i => 0 ≤ i ∧ i < NUM_LEDS

/-- Whether an access reads the scan. -/
def Access.isRanges : Access → Bool
  | .ranges_at _ => true
  | _ => false

/-- What the two outer loops keep: nothing was thrown, both vectors have `NUM_LEDS`
elements, every access made so far was in bounds. -/
def Run.ok {F C : Type} (n : Nat) (st : Run F C) : Prop :=
  st.thrown = false ∧ (st.sectors.length : Int) = NUM_LEDS ∧
    (st.colors.length : Int) = NUM_LEDS ∧ ∀ a ∈ st.log, a.inBounds n

/-- What the first loop keeps when the sector width is 0, after sectors `0 .. k - 1`. -/
def Run.filled {F C : Type} (ops : FloatOps F C) (k : Nat) (st : Run F C) : Prop :=
  st.thrown = false ∧ st.sectors.length = 58 ∧
    (∀ idx, idx < k → st.sectors[idx]? = some ops.max) ∧
    ∀ a ∈ st.log, a.isRanges = false

end LightApproximation

namespace LightApproximation

/-! ## Concrete inputs on which the model is run -/

/-- An interpretation of the `float` operations over the naturals (ranges in millimetres,
a colour being the mean it was computed from). -/
def sampleFloatOps : FloatOps Nat Nat where
  zero := 0
  max := 4294967295
  min := fun a b => if a ≤ b then a else b
  neZero := fun x => x != 0
  add := fun a b => a + b
  half := fun x => x / 2
  color := fun x => x

/-- A scan of 120 ranges, some of them 0. -/
def sampleRanges : List Nat := (List.range 120).map (fun k => 100 * (k % 7))

/-- A scan of 16777311 ranges, each of them 1 m. -/
def longRanges : List Nat := List.replicate 16777311 1000

/-- A scan of 57 ranges. -/
def shortRanges : List Nat := (List.range 57).map (fun k => 100 * (k % 7))

/-- The vector `mode_msg.colors` as `main` leaves it: `NUM_LEDS` default colours. -/
def sampleColors : List Nat := List.replicate 58 0

end LightApproximation

namespace SafetyController

/-! ## Loads and stores inside one byte -/

theorem and_fieldMask (x w : Nat) : x &&& fieldMask w = x % 2 ^ w := by
  simp [fieldMask]

theorem testBit_getBits (b off w j : Nat) :
    (getBits b off w).testBit j = (decide (j < w) && b.testBit (off + j)) := by
  simp [getBits, fieldMask, Bool.and_comm]

theorem testBit_255 (k : Nat) : Nat.testBit 255 k = decide (k < 8) := by
  have h : (255 : Nat) = 2 ^ 8 - 1 := by norm_num
  rw [h, Nat.testBit_two_pow_sub_one]

/-- Bit `k` of a byte after a store: bits of the field come from the value, the other bits of
the byte are the old ones. -/
theorem testBit_setBits (b off w v k : Nat) :
    (setBits b off w v).testBit k =
      (decide (k < 8) &&
        (if off ≤ k ∧ k < off + w then v.testBit (k - off) else b.testBit k)) := by
  have h256 : (256 : Nat) = 2 ^ 8 := by norm_num
  unfold setBits
  rw [h256, Nat.testBit_mod_two_pow]
  simp only [Nat.testBit_or, Nat.testBit_and, Nat.testBit_xor, Nat.testBit_shiftLeft,
    testBit_255, fieldMask, Nat.testBit_two_pow_sub_one]
  by_cases h8 : k < 8 <;> by_cases h1 : off ≤ k <;> by_cases h2 : k < off + w
  · have h3 : k - off < w := by omega
    simp [h8, h1, h2, h3]
  · have h3 : ¬ k - off < w := by omega
    simp [h8, h1, h2, h3]
  · simp [h8, h1, h2]
  · simp [h8, h1, h2]
  all_goals simp [h8]

theorem getBits_lt (b off w : Nat) : getBits b off w < 2 ^ w := by
  rw [getBits, and_fieldMask]
  exact Nat.mod_lt _ (Nat.two_pow_pos w)

theorem getBits_setBits_same (b off w v : Nat) (h : off + w ≤ 8) :
    getBits (setBits b off w v) off w = v % 2 ^ w := by
  apply Nat.eq_of_testBit_eq
  intro j
  rw [testBit_getBits, testBit_setBits, Nat.testBit_mod_two_pow]
  by_cases hj : j < w
  · have h8 : off + j < 8 := by omega
    have hin : off ≤ off + j ∧ off + j < off + w := by omega
    simp [hj, h8, hin]
  · simp [hj]

theorem getBits_setBits_disjoint (b off w v off2 w2 : Nat) (h : off2 + w2 ≤ 8)
    (hd : off2 + w2 ≤ off ∨ off + w ≤ off2) :
    getBits (setBits b off w v) off2 w2 = getBits b off2 w2 := by
  apply Nat.eq_of_testBit_eq
  intro j
  rw [testBit_getBits, testBit_getBits, testBit_setBits]
  by_cases hj : j < w2
  · have h8 : off2 + j < 8 := by omega
    have hout : ¬ (off ≤ off2 + j ∧ off2 + j < off + w) := by omega
    simp [hj, h8, hout]
  · simp [hj]

/-- A one-bit field reads as the bit it occupies. -/
theorem getBits_one (b off : Nat) : getBits b off 1 = (b.testBit off).toNat := by
  apply Nat.eq_of_testBit_eq
  intro j
  rw [testBit_getBits, Nat.testBit_bool_to_nat]
  by_cases hj : j = 0
  · subst hj; simp
  · have : ¬ j < 1 := by omega
    simp [hj, this]

theorem getBits_one_ne_zero (b off : Nat) : (getBits b off 1 != 0) = b.testBit off := by
  rw [getBits_one]
  cases b.testBit off <;> rfl

/-! ## Loads and stores in a frame -/

theorem readByte_writeByte {n : Nat} (fr : Frame n) (i x j : Nat) :
    readByte (writeByte fr i x) j = if j = i ∧ j < n then x else readByte fr j := by
  unfold readByte writeByte
  by_cases hj : j < n
  · by_cases hji : j = i
    · subst hji
      simp [hj]
    · simp [hj, hji]
  · simp [hj]

theorem readField_writeField_same {n : Nat} (fr : Frame n) (p : FieldPos) (v : Nat)
    (hn : p.offset / 8 < n) (hb : p.inByte) :
    readField (writeField fr p v) p = v % 2 ^ p.width := by
  unfold readField writeField
  rw [readByte_writeByte]
  simp only [hn, and_self, if_true]
  exact getBits_setBits_same _ _ _ _ hb

theorem readField_writeField_disjoint {n : Nat} (fr : Frame n) (p q : FieldPos) (v : Nat)
    (hq : q.inByte) (hd : p.disjoint q) :
    readField (writeField fr p v) q = readField fr q := by
  unfold readField writeField
  rw [readByte_writeByte]
  unfold FieldPos.inByte at hq
  unfold FieldPos.disjoint at hd
  by_cases hc : q.offset / 8 = p.offset / 8 ∧ q.offset / 8 < n
  · rw [if_pos hc, hc.1]
    apply getBits_setBits_disjoint _ _ _ _ _ _ hq
    have := hc.1
    omega
  · rw [if_neg hc]

/-- Bit `bit` of byte `byte` after a member assignment. -/
theorem frameBit_writeField {n : Nat} (fr : Frame n) (p : FieldPos) (v byte bit : Nat)
    (hbit : bit < 8) :
    frameBit (writeField fr p v) byte bit =
      if byte = p.offset / 8 ∧ byte < n ∧ p.offset % 8 ≤ bit ∧ bit < p.offset % 8 + p.width
      then v.testBit (bit - p.offset % 8) else frameBit fr byte bit := by
  unfold frameBit writeField
  rw [readByte_writeByte]
  by_cases hc : byte = p.offset / 8 ∧ byte < n
  · rw [if_pos hc, testBit_setBits]
    obtain ⟨h1, h2⟩ := hc
    subst h1
    by_cases hf : p.offset % 8 ≤ bit ∧ bit < p.offset % 8 + p.width
    · simp [hbit, hf, h2]
    · simp [hbit, hf]
  · rw [if_neg hc]
    have : ¬ (byte = p.offset / 8 ∧ byte < n ∧ p.offset % 8 ≤ bit ∧
        bit < p.offset % 8 + p.width) := fun h => hc ⟨h.1, h.2.1⟩
    rw [if_neg this]

/-- Reading a member after all members of a list were assigned, when the members are
pairwise disjoint and none crosses a byte boundary. -/
theorem readField_foldl_writeField {σ : Type} [DecidableEq σ] {n : Nat}
    (pos : σ → FieldPos) (val : σ → Nat)
    (hn : ∀ s, (pos s).offset / 8 < n) (hb : ∀ s, (pos s).inByte)
    (hd : ∀ s t, s ≠ t → (pos s).disjoint (pos t))
    (l : List σ) (fr : Frame n) (s : σ) :
    readField (l.foldl (fun fr t => writeField fr (pos t) (val t)) fr) (pos s) =
      if s ∈ l then val s % 2 ^ (pos s).width else readField fr (pos s) := by
  induction l generalizing fr with
  | nil => simp
  | cons a l ih =>
    rw [List.foldl_cons, ih]
    by_cases hs : s ∈ l
    · simp [hs]
    · by_cases ha : s = a
      · subst ha
        simp [hs, readField_writeField_same _ _ _ (hn s) (hb s)]
      · have hne : a ≠ s := fun h => ha h.symm
        simp [hs, ha, readField_writeField_disjoint _ _ _ _ (hb s) (hd a s hne)]

end SafetyController

namespace SafetyController

/-! ## The layout of FlexiInput and FlexiOutput -/

theorem FlexiInput.locate_eq (s : InputSignal) :
    locate FlexiInput.decl s 0 =
      some ⟨8 * (FlexiInput.comment s).1 + (FlexiInput.comment s).2, 1⟩ := by
  cases s <;> rfl

theorem FlexiInput.pos_eq (s : InputSignal) :
    FlexiInput.pos s = ⟨8 * (FlexiInput.comment s).1 + (FlexiInput.comment s).2, 1⟩ := by
  unfold FlexiInput.pos
  rw [FlexiInput.locate_eq]
  rfl

theorem FlexiInput.comment_bit_lt (s : InputSignal) : (FlexiInput.comment s).2 < 8 := by
  cases s <;> decide

theorem FlexiInput.comment_byte_lt (s : InputSignal) :
    (FlexiInput.comment s).1 < FlexiInput.size := by
  cases s <;> decide

theorem FlexiInput.pos_byte (s : InputSignal) :
    (FlexiInput.pos s).offset / 8 = (FlexiInput.comment s).1 := by
  rw [FlexiInput.pos_eq]
  have := FlexiInput.comment_bit_lt s
  show (8 * (FlexiInput.comment s).1 + (FlexiInput.comment s).2) / 8 = _
  omega

theorem FlexiInput.pos_bit (s : InputSignal) :
    (FlexiInput.pos s).offset % 8 = (FlexiInput.comment s).2 := by
  rw [FlexiInput.pos_eq]
  have := FlexiInput.comment_bit_lt s
  show (8 * (FlexiInput.comment s).1 + (FlexiInput.comment s).2) % 8 = _
  omega

theorem FlexiInput.pos_width (s : InputSignal) : (FlexiInput.pos s).width = 1 := by
  rw [FlexiInput.pos_eq]

theorem FlexiInput.pos_inFrame (s : InputSignal) :
    (FlexiInput.pos s).offset / 8 < FlexiInput.size := by
  rw [FlexiInput.pos_byte]
  exact FlexiInput.comment_byte_lt s

theorem FlexiInput.pos_inByte (s : InputSignal) : (FlexiInput.pos s).inByte := by
  unfold FieldPos.inByte
  rw [FlexiInput.pos_bit, FlexiInput.pos_width]
  have := FlexiInput.comment_bit_lt s
  omega

theorem FlexiInput.pos_disjoint (s t : InputSignal) (h : s ≠ t) :
    (FlexiInput.pos s).disjoint (FlexiInput.pos t) := by
  rw [FlexiInput.pos_eq, FlexiInput.pos_eq]
  unfold FieldPos.disjoint
  cases s <;> cases t <;> first | exact absurd rfl h | decide

theorem FlexiInput.mem_signals (s : InputSignal) : s ∈ FlexiInput.signals := by
  cases s <;> decide

/-- A named input signal reads as the bit named in its comment. -/
theorem FlexiInput.get_eq (fr : Frame FlexiInput.size) (s : InputSignal) :
    FlexiInput.get fr s =
      (frameBit fr (FlexiInput.comment s).1 (FlexiInput.comment s).2).toNat := by
  unfold FlexiInput.get readField frameBit
  rw [FlexiInput.pos_byte, FlexiInput.pos_bit, FlexiInput.pos_width, getBits_one]

theorem decodeInput_eq (fr : Frame FlexiInput.size) (s : InputSignal) :
    decodeInput fr s = frameBit fr (FlexiInput.comment s).1 (FlexiInput.comment s).2 := by
  unfold decodeInput
  rw [FlexiInput.get_eq]
  cases frameBit fr (FlexiInput.comment s).1 (FlexiInput.comment s).2 <;> rfl

/-- The declared width of each member of `FlexiOutput`. -/
theorem FlexiOutput.locate_out_eq (f : OutputField) :
    locate FlexiOutput.decl f 0 =
      some ⟨8 * (FlexiOutput.comment f).1 + (FlexiOutput.comment f).2,
        if f = .laser_case then 5 else 1⟩ := by
  cases f <;> rfl

theorem FlexiOutput.pos_out_eq (f : OutputField) :
    FlexiOutput.pos f = ⟨8 * (FlexiOutput.comment f).1 + (FlexiOutput.comment f).2,
        if f = .laser_case then 5 else 1⟩ := by
  unfold FlexiOutput.pos
  rw [FlexiOutput.locate_out_eq]
  rfl

theorem FlexiOutput.pos_out_inFrame (f : OutputField) :
    (FlexiOutput.pos f).offset / 8 < FlexiOutput.size := by
  cases f <;> decide

theorem FlexiOutput.pos_out_inByte (f : OutputField) : (FlexiOutput.pos f).inByte := by
  cases f <;> decide

theorem FlexiOutput.pos_out_disjoint (f g : OutputField) (h : f ≠ g) :
    (FlexiOutput.pos f).disjoint (FlexiOutput.pos g) := by
  cases f <;> cases g <;> first | exact absurd rfl h | decide

theorem FlexiOutput.mem_fields (f : OutputField) : f ∈ FlexiOutput.fields := by
  cases f <;> decide

theorem FlexiOutput.get_set_same (fr : Frame FlexiOutput.size) (f : OutputField) (v : Nat) :
    FlexiOutput.get (FlexiOutput.set fr f v) f = v % 2 ^ (FlexiOutput.pos f).width :=
  readField_writeField_same fr _ v (FlexiOutput.pos_out_inFrame f) (FlexiOutput.pos_out_inByte f)

theorem FlexiOutput.get_set_other (fr : Frame FlexiOutput.size) (f g : OutputField) (v : Nat)
    (h : f ≠ g) : FlexiOutput.get (FlexiOutput.set fr f v) g = FlexiOutput.get fr g :=
  readField_writeField_disjoint fr _ _ v (FlexiOutput.pos_out_inByte g)
    (FlexiOutput.pos_out_disjoint f g h)

/-- A one-bit output member reads as the bit named in its comment. -/
theorem FlexiOutput.get_flag (fr : Frame FlexiOutput.size) (f : OutputField)
    (h : f ≠ .laser_case) :
    (FlexiOutput.get fr f != 0) =
      frameBit fr (FlexiOutput.comment f).1 (FlexiOutput.comment f).2 := by
  cases f
  · exact absurd rfl h
  all_goals exact getBits_one_ne_zero _ _

theorem FlexiOutput.get_laser_case (fr : Frame FlexiOutput.size) :
    FlexiOutput.get fr .laser_case = readByte fr 0 % 32 := by
  show getBits (readByte fr 0) 0 5 = _
  rw [getBits, and_fieldMask]
  simp

/-! ## Round trip -/

theorem get_encodeInput (r : InputRecord) (s : InputSignal) :
    FlexiInput.get (encodeInput r) s = (r s).toNat := by
  unfold FlexiInput.get encodeInput
  have h := readField_foldl_writeField FlexiInput.pos (fun t => (r t).toNat)
    FlexiInput.pos_inFrame FlexiInput.pos_inByte FlexiInput.pos_disjoint
    FlexiInput.signals (fun _ => 0) s
  rw [if_pos (FlexiInput.mem_signals s), FlexiInput.pos_width] at h
  have h2 : (r s).toNat % 2 ^ 1 = (r s).toNat := by cases r s <;> rfl
  rw [h2] at h
  exact h

theorem decode_encodeInput (r : InputRecord) : decodeInput (encodeInput r) = r := by
  funext s
  unfold decodeInput
  rw [get_encodeInput]
  cases r s <;> rfl

theorem get_encodeOutput (r : OutputRecord) (f : OutputField) :
    FlexiOutput.get (encodeOutput r) f = r.value f % 2 ^ (FlexiOutput.pos f).width := by
  unfold FlexiOutput.get encodeOutput
  have h := readField_foldl_writeField FlexiOutput.pos r.value
    FlexiOutput.pos_out_inFrame FlexiOutput.pos_out_inByte FlexiOutput.pos_out_disjoint
    FlexiOutput.fields (fun _ => 0) f
  rw [if_pos (FlexiOutput.mem_fields f)] at h
  exact h

theorem get_encodeOutput_flag (r : OutputRecord) (f : OutputField) (b : Bool)
    (hw : (FlexiOutput.pos f).width = 1) (hv : r.value f = b.toNat) :
    (FlexiOutput.get (encodeOutput r) f != 0) = b := by
  rw [get_encodeOutput, hw, hv]
  cases b <;> rfl

theorem decode_encodeOutput (r : OutputRecord) (h : r.laser_case < 32) :
    decodeOutput (encodeOutput r) = r := by
  cases r with
  | mk lc ff fl frt eb et =>
    unfold decodeOutput
    congr
    · rw [get_encodeOutput]
      exact Nat.mod_eq_of_lt h
    · exact get_encodeOutput_flag _ .far_front ff rfl rfl
    · exact get_encodeOutput_flag _ .far_left fl rfl rfl
    · exact get_encodeOutput_flag _ .far_right frt rfl rfl
    · exact get_encodeOutput_flag _ .enable_base eb rfl rfl
    · exact get_encodeOutput_flag _ .enable_torso et rfl rfl

end SafetyController

namespace SafetyController

/-! ## Member assignment, bit by bit -/

theorem FlexiOutput.frameBit_set (fr : Frame FlexiOutput.size) (f : OutputField)
    (v byte bit : Nat) (hbit : bit < 8) :
    frameBit (FlexiOutput.set fr f v) byte bit =
      if byte = (FlexiOutput.comment f).1 ∧ (FlexiOutput.comment f).2 ≤ bit ∧
          bit < (FlexiOutput.comment f).2 + (FlexiOutput.pos f).width
      then v.testBit (bit - (FlexiOutput.comment f).2) else frameBit fr byte bit := by
  unfold FlexiOutput.set
  rw [frameBit_writeField fr _ v byte bit hbit]
  have hb : (FlexiOutput.pos f).offset / 8 = (FlexiOutput.comment f).1 := by cases f <;> rfl
  have ho : (FlexiOutput.pos f).offset % 8 = (FlexiOutput.comment f).2 := by cases f <;> rfl
  have hlt : (FlexiOutput.comment f).1 < FlexiOutput.size := by cases f <;> decide
  rw [hb, ho]
  by_cases h1 : byte = (FlexiOutput.comment f).1
  · subst h1
    simp [hlt]
  · simp [h1]

theorem FlexiOutput.set_laser_case_byte1 (fr : Frame FlexiOutput.size) (v : Nat) :
    FlexiOutput.set fr .laser_case v 1 = fr 1 := by
  have hp : FlexiOutput.pos .laser_case = ⟨0, 5⟩ := rfl
  unfold FlexiOutput.set writeField writeByte
  rw [hp]
  simp

end SafetyController

namespace SafetyController

/-! ## Codec claims -/

/-- C1. Round trip over the declared frame layouts: an output record whose zone selector is in
0..31 is recovered by decoding the 2-byte frame that encoding it produces, and an input record
(one boolean per named signal) is recovered by decoding the 10-byte frame that encoding it
produces. -/
theorem flexi_round_trip (ro : OutputRecord) (h : ro.laser_case < 32) (ri : InputRecord) :
    decodeOutput (encodeOutput ro) = ro ∧ decodeInput (encodeInput ri) = ri :=
  ⟨decode_encodeOutput ro h, decode_encodeInput ri⟩

theorem flexi_round_trip_witness :
    (19 < 32) ∧
    decodeOutput (encodeOutput ⟨19, true, false, true, true, false⟩) =
      ⟨19, true, false, true, true, false⟩ ∧
    decodeInput (encodeInput (fun s => decide (s ≠ .em_stop_ok))) =
      (fun s => decide (s ≠ .em_stop_ok)) :=
  ⟨by decide,
    flexi_round_trip ⟨19, true, false, true, true, false⟩ (by decide)
      (fun s => decide (s ≠ .em_stop_ok))⟩

/-- C2. Bit layout: under allocation in declaration order from the least significant bit,
`FlexiInput` occupies 10 bytes and `FlexiOutput` 2 bytes, every named member is allocated at
the `byte.bit` position of its comment (one bit wide, `laser_case` five bits wide), no two named
members share a bit, and for every raw frame each named signal decodes to the bit(s) at that
position. -/
theorem flexi_bit_layout :
    structSize FlexiInput.decl = 10 ∧ structSize FlexiOutput.decl = 2 ∧
    (∀ s : InputSignal, locate FlexiInput.decl s 0 =
      some ⟨8 * (FlexiInput.comment s).1 + (FlexiInput.comment s).2, 1⟩) ∧
    (∀ f : OutputField, locate FlexiOutput.decl f 0 =
      some ⟨8 * (FlexiOutput.comment f).1 + (FlexiOutput.comment f).2,
        if f = .laser_case then 5 else 1⟩) ∧
    (∀ s t : InputSignal, s ≠ t → (FlexiInput.pos s).disjoint (FlexiInput.pos t)) ∧
    (∀ f g : OutputField, f ≠ g → (FlexiOutput.pos f).disjoint (FlexiOutput.pos g)) ∧
    (∀ (fr : Frame FlexiInput.size) (s : InputSignal),
      decodeInput fr s = frameBit fr (FlexiInput.comment s).1 (FlexiInput.comment s).2) ∧
    (∀ fr : Frame FlexiInput.size,
      decodeInput fr .em_stop_ur10_ok = frameBit fr 0 6 ∧
      decodeInput fr .em_stop_ok = frameBit fr 2 4 ∧
      decodeInput fr .connection_ok = frameBit fr 3 0 ∧
      decodeInput fr .laser_rear_ok = frameBit fr 9 4) ∧
    (∀ fr : Frame FlexiOutput.size,
      (decodeOutput fr).laser_case = readByte fr 0 % 32 ∧
      (∀ k, k < 5 → (decodeOutput fr).laser_case.testBit k = frameBit fr 0 k) ∧
      (decodeOutput fr).far_front = frameBit fr 0 5 ∧
      (decodeOutput fr).far_left = frameBit fr 0 6 ∧
      (decodeOutput fr).far_right = frameBit fr 0 7 ∧
      (decodeOutput fr).enable_base = frameBit fr 1 0 ∧
      (decodeOutput fr).enable_torso = frameBit fr 1 1) := by
  refine ⟨by decide, by decide, FlexiInput.locate_eq, FlexiOutput.locate_out_eq,
    FlexiInput.pos_disjoint, FlexiOutput.pos_out_disjoint, decodeInput_eq, ?_, ?_⟩
  · intro fr
    exact ⟨decodeInput_eq fr _, decodeInput_eq fr _, decodeInput_eq fr _, decodeInput_eq fr _⟩
  · intro fr
    refine ⟨FlexiOutput.get_laser_case fr, ?_,
      FlexiOutput.get_flag fr .far_front (by decide),
      FlexiOutput.get_flag fr .far_left (by decide),
      FlexiOutput.get_flag fr .far_right (by decide),
      FlexiOutput.get_flag fr .enable_base (by decide),
      FlexiOutput.get_flag fr .enable_torso (by decide)⟩
    intro k hk
    show (getBits (readByte fr 0) 0 5).testBit k = (readByte fr 0).testBit k
    rw [testBit_getBits]
    simp [hk]

/-- C3. Bit isolation and masking of the zone selector: writing any `v` to `laser_case` stores
`v mod 32` (so the selector reads back in 0..31), changes no bit outside bits 0..4 of byte 0
(bits 5..7 of byte 0 and every other member keep their value, byte 1 is untouched); and
writing a one-bit output member stores `u mod 2` and changes no bit but the member's own. -/
theorem laser_case_store_isolated (fr : Frame FlexiOutput.size) (v : Nat) :
    FlexiOutput.get (FlexiOutput.set fr .laser_case v) .laser_case = v % 32 ∧
    FlexiOutput.get (FlexiOutput.set fr .laser_case v) .laser_case < 32 ∧
    (∀ byte bit, bit < 8 → ¬ (byte = 0 ∧ bit < 5) →
      frameBit (FlexiOutput.set fr .laser_case v) byte bit = frameBit fr byte bit) ∧
    (∀ bit, 5 ≤ bit → bit < 8 →
      frameBit (FlexiOutput.set fr .laser_case v) 0 bit = frameBit fr 0 bit) ∧
    FlexiOutput.set fr .laser_case v 1 = fr 1 ∧
    (∀ g, g ≠ .laser_case →
      FlexiOutput.get (FlexiOutput.set fr .laser_case v) g = FlexiOutput.get fr g) ∧
    (∀ (f : OutputField) (u : Nat), f ≠ .laser_case →
      FlexiOutput.get (FlexiOutput.set fr f u) f = u % 2 ∧
      (∀ byte bit, bit < 8 → (byte, bit) ≠ FlexiOutput.comment f →
        frameBit (FlexiOutput.set fr f u) byte bit = frameBit fr byte bit) ∧
      (∀ g, g ≠ f → FlexiOutput.get (FlexiOutput.set fr f u) g = FlexiOutput.get fr g)) := by
  have hiso : ∀ byte bit, bit < 8 → ¬ (byte = 0 ∧ bit < 5) →
      frameBit (FlexiOutput.set fr .laser_case v) byte bit = frameBit fr byte bit := by
    intro byte bit hbit hout
    rw [FlexiOutput.frameBit_set fr .laser_case v byte bit hbit]
    have hc : ¬ (byte = (FlexiOutput.comment .laser_case).1 ∧
        (FlexiOutput.comment .laser_case).2 ≤ bit ∧
        bit < (FlexiOutput.comment .laser_case).2 + (FlexiOutput.pos .laser_case).width) := by
      intro hh
      apply hout
      refine ⟨hh.1, ?_⟩
      have h3 := hh.2.2
      have e1 : (FlexiOutput.comment .laser_case).2 = 0 := rfl
      have e2 : (FlexiOutput.pos .laser_case).width = 5 := rfl
      omega
    rw [if_neg hc]
  refine ⟨FlexiOutput.get_set_same fr .laser_case v, ?_, hiso, ?_,
    FlexiOutput.set_laser_case_byte1 fr v, ?_, ?_⟩
  · rw [FlexiOutput.get_set_same fr .laser_case v]
    exact Nat.mod_lt _ (by decide)
  · intro bit h5 h8
    exact hiso 0 bit h8 (by omega)
  · intro g hg
    exact FlexiOutput.get_set_other fr .laser_case g v (fun h => hg h.symm)
  · intro f u hf
    have hw : (FlexiOutput.pos f).width = 1 := by
      cases f
      · exact absurd rfl hf
      all_goals rfl
    refine ⟨?_, ?_, ?_⟩
    · rw [FlexiOutput.get_set_same fr f u, hw, Nat.pow_one]
    · intro byte bit hbit hne
      rw [FlexiOutput.frameBit_set fr f u byte bit hbit, hw]
      have hc : ¬ (byte = (FlexiOutput.comment f).1 ∧ (FlexiOutput.comment f).2 ≤ bit ∧
          bit < (FlexiOutput.comment f).2 + 1) := by
        intro hh
        apply hne
        have : bit = (FlexiOutput.comment f).2 := by omega
        rw [hh.1, this]
      rw [if_neg hc]
    · intro g hg
      exact FlexiOutput.get_set_other fr f g u (fun h => hg h.symm)

end SafetyController

namespace SafetyController

/-! ## The object: construction and the member functions -/

theorem memset_zero_count {n : Nat} (fr : Frame n) (value : Nat) : memset fr value 0 = fr := by
  funext k
  simp [memset]

theorem construct_input (prior : safety_controller_impl) :
    (safety_controller_impl.construct prior).flexi_input_ = prior.flexi_input_ := by
  show memset prior.flexi_input_ FlexiInput.size 0 = prior.flexi_input_
  exact memset_zero_count _ _

theorem construct_output (prior : safety_controller_impl) :
    (safety_controller_impl.construct prior).flexi_output_ =
      FlexiOutput.set (FlexiOutput.set prior.flexi_output_ .enable_base 1) .enable_torso 1 := by
  show FlexiOutput.set (FlexiOutput.set (memset prior.flexi_output_ FlexiOutput.size 0)
    .enable_base 1) .enable_torso 1 = _
  rw [memset_zero_count]

theorem construct_enable (prior : safety_controller_impl) :
    FlexiOutput.get (safety_controller_impl.construct prior).flexi_output_ .enable_base = 1 ∧
    FlexiOutput.get (safety_controller_impl.construct prior).flexi_output_ .enable_torso = 1 := by
  rw [construct_output]
  constructor
  · rw [FlexiOutput.get_set_other _ .enable_torso .enable_base 1 (by decide),
      FlexiOutput.get_set_same]
    rfl
  · rw [FlexiOutput.get_set_same]
    rfl

theorem step_output {R : Type} {cap : Nat} (ops : DoubleOps R) (h : FlexiInput.size ≤ cap)
    (self : safety_controller_impl) (c : Op R cap) :
    (step ops h self c).flexi_output_ = self.flexi_output_ := by
  cases c <;> rfl

theorem run_output {R : Type} {cap : Nat} (ops : DoubleOps R) (h : FlexiInput.size ≤ cap)
    (self : safety_controller_impl) (calls : List (Op R cap)) :
    (run ops h self calls).flexi_output_ = self.flexi_output_ := by
  unfold run
  induction calls generalizing self with
  | nil => rfl
  | cons c cs ih => rw [List.foldl_cons, ih, step_output]

theorem run_append {R : Type} {cap : Nat} (ops : DoubleOps R) (h : FlexiInput.size ≤ cap)
    (self : safety_controller_impl) (xs ys : List (Op R cap)) :
    run ops h self (xs ++ ys) = run ops h (run ops h self xs) ys := by
  unfold run
  rw [List.foldl_append]

theorem run_input {R : Type} {cap : Nat} (ops : DoubleOps R) (h : FlexiInput.size ≤ cap)
    (self : safety_controller_impl) (calls : List (Op R cap)) :
    (run ops h self calls).flexi_input_ =
      match lastDelivered calls with
      | none => self.flexi_input_
      | some input => input.asFlexiInput h := by
  unfold run
  induction calls generalizing self with
  | nil => rfl
  | cons c cs ih =>
    rw [List.foldl_cons, ih]
    simp only [lastDelivered]
    cases hl : lastDelivered cs with
    | some input => rfl
    | none =>
      cases c <;> rfl

end SafetyController

namespace SafetyController

/-! ## Claims about the object -/

/-- C4 (as stated, refuted). The cached input has `em_stop_ok = 0` with the other stop and
connection signals at 1, and after one call of `update` both enable flags are still 1, not
false. -/
theorem update_enable_counterexample :
    FlexiInput.get emStopState.flexi_input_ .em_stop_ok = 0 ∧
    FlexiInput.get emStopState.flexi_input_ .hardware_stop_ok = 1 ∧
    FlexiInput.get emStopState.flexi_input_ .software_stop_ok = 1 ∧
    FlexiInput.get emStopState.flexi_input_ .laser_stop_ok = 1 ∧
    FlexiInput.get emStopState.flexi_input_ .connection_ok = 1 ∧
    (decodeOutput
      (emStopState.update sampleDoubleOps sampleData sampleConfig).1.flexi_output_).enable_base
        = true ∧
    (decodeOutput
      (emStopState.update sampleDoubleOps sampleData sampleConfig).1.flexi_output_).enable_torso
        = true ∧
    ¬ ((decodeOutput
        (emStopState.update sampleDoubleOps sampleData sampleConfig).1.flexi_output_).enable_base
          = false ∧
      (decodeOutput
        (emStopState.update sampleDoubleOps sampleData sampleConfig).1.flexi_output_).enable_torso
          = false) := by
  decide

/-- C4 (amended). For every object state (so every cached input) and every odometry value,
`update` changes neither the object nor `data`, so both enable flags keep their value; in every
state reached from construction by `handle_input`, `update` and `callback_set_mode` calls the
flags read 1 after a further `update`, whatever the cached input signals are. -/
theorem update_keeps_enable_flags {R : Type} {cap : Nat} (ops : DoubleOps R)
    (h : FlexiInput.size ≤ cap) (self prior : safety_controller_impl)
    (calls : List (Op R cap)) (data : safety_controller_data R)
    (config : safety_controller_config) :
    (self.update ops data config).1 = self ∧ (self.update ops data config).2 = data ∧
    FlexiOutput.get (self.update ops data config).1.flexi_output_ .enable_base =
      FlexiOutput.get self.flexi_output_ .enable_base ∧
    FlexiOutput.get (self.update ops data config).1.flexi_output_ .enable_torso =
      FlexiOutput.get self.flexi_output_ .enable_torso ∧
    FlexiOutput.get ((run ops h (safety_controller_impl.construct prior) calls).update ops data
      config).1.flexi_output_ .enable_base = 1 ∧
    FlexiOutput.get ((run ops h (safety_controller_impl.construct prior) calls).update ops data
      config).1.flexi_output_ .enable_torso = 1 := by
  refine ⟨rfl, rfl, rfl, rfl, ?_, ?_⟩
  · show FlexiOutput.get (run ops h (safety_controller_impl.construct prior) calls).flexi_output_
      .enable_base = 1
    rw [run_output]
    exact (construct_enable prior).1
  · show FlexiOutput.get (run ops h (safety_controller_impl.construct prior) calls).flexi_output_
      .enable_torso = 1
    rw [run_output]
    exact (construct_enable prior).2

theorem update_keeps_enable_flags_witness :
    FlexiInput.size ≤ 10 ∧
    FlexiOutput.get ((run sampleDoubleOps (Nat.le_refl 10)
      (safety_controller_impl.construct onesStorage) sampleCalls).update sampleDoubleOps
      sampleData sampleConfig).1.flexi_output_ .enable_base = 1 :=
  ⟨Nat.le_refl 10,
    (update_keeps_enable_flags sampleDoubleOps (Nat.le_refl 10) emStopState onesStorage
      sampleCalls sampleData sampleConfig).2.2.2.2.1⟩

/-- C5 (the code at a configuration whose connect succeeds). The calls made on the transport
are `connect` followed by two `start_worker` calls, not one. -/
theorem configure_starts_worker_twice (connect : String → String → Bool)
    (config : safety_controller_config) :
    (configure connect config).calls =
      (if connect config.host config.port
       then [.connect config.host config.port, .start_worker, .start_worker]
       else [.connect config.host config.port]) ∧
    startCount (configure connect config).calls =
      (if connect config.host config.port then 2 else 0) ∧
    startCount (configure (fun _ _ => true) sampleConfig).calls = 2 := by
  refine ⟨?_, ?_, ?_⟩
  · unfold configure
    cases connect config.host config.port <;> rfl
  · unfold configure
    cases connect config.host config.port <;> rfl
  · rfl

/-- C6. Fatal connection failure: when `connect` answers false, `configure` calls `exit` with
`EXIT_FAILURE` (which differs from `EXIT_SUCCESS`) after the single call `connect`, so
`start_worker` is never called; and whatever the transport answers, `configure` returns to
its caller only if `connect` answered true. -/
theorem configure_connect_failure (connect : String → String → Bool)
    (config : safety_controller_config) (hfail : connect config.host config.port = false) :
    (configure connect config).exited = some EXIT_FAILURE ∧ EXIT_FAILURE ≠ EXIT_SUCCESS ∧
    (configure connect config).calls = [.connect config.host config.port] ∧
    TransportCall.start_worker ∉ (configure connect config).calls ∧
    startCount (configure connect config).calls = 0 ∧
    (∀ (connect2 : String → String → Bool) (config2 : safety_controller_config),
      (configure connect2 config2).exited = none → connect2 config2.host config2.port = true) := by
  refine ⟨?_, by decide, ?_, ?_, ?_, ?_⟩
  · unfold configure
    rw [hfail]
    rfl
  · unfold configure
    rw [hfail]
    rfl
  · unfold configure
    rw [hfail]
    simp
  · unfold configure
    rw [hfail]
    rfl
  · intro connect2 config2
    unfold configure
    cases connect2 config2.host config2.port <;> simp

theorem configure_connect_failure_witness :
    (fun (_ _ : String) => false) sampleConfig.host sampleConfig.port = false ∧
    (configure (fun _ _ => false) sampleConfig).exited = some EXIT_FAILURE ∧
    TransportCall.start_worker ∉ (configure (fun _ _ => false) sampleConfig).calls :=
  ⟨rfl, (configure_connect_failure (fun _ _ => false) sampleConfig rfl).1,
    (configure_connect_failure (fun _ _ => false) sampleConfig rfl).2.2.2.1⟩

/-- C7. Input cache holds only stored records: after construction and any sequence of
`handle_input`, `update` and `callback_set_mode` calls, the cached input struct is the one
present after construction when no payload was delivered, and otherwise the first
`sizeof(FlexiInput)` bytes of the payload delivered last (so the cached record is the decode
of those bytes); `handle_input` replaces the whole cached struct and leaves the output struct
unchanged, `update` and `callback_set_mode` leave both unchanged. -/
theorem input_cache_holds_stored_records {R : Type} {cap : Nat} (ops : DoubleOps R)
    (h : FlexiInput.size ≤ cap) (prior : safety_controller_impl) (calls : List (Op R cap)) :
    (run ops h (safety_controller_impl.construct prior) calls).flexi_input_ =
      (match lastDelivered calls with
       | none => (safety_controller_impl.construct prior).flexi_input_
       | some input => input.asFlexiInput h) ∧
    decodeInput (run ops h (safety_controller_impl.construct prior) calls).flexi_input_ =
      (match lastDelivered calls with
       | none => decodeInput (safety_controller_impl.construct prior).flexi_input_
       | some input => decodeInput (input.asFlexiInput h)) ∧
    (∀ (self : safety_controller_impl) (input : FlexiInputData cap),
      (self.handle_input h input).flexi_input_ = input.asFlexiInput h ∧
      (∀ k : Fin FlexiInput.size, (self.handle_input h input).flexi_input_ k =
        input.data ⟨k.val, Nat.lt_of_lt_of_le k.isLt h⟩) ∧
      (self.handle_input h input).flexi_output_ = self.flexi_output_) ∧
    (∀ (self : safety_controller_impl) (data : safety_controller_data R)
      (config : safety_controller_config),
      (self.update ops data config).1.flexi_input_ = self.flexi_input_ ∧
      (self.update ops data config).1.flexi_output_ = self.flexi_output_) ∧
    (∀ (self : safety_controller_impl) (req : Int) (config : safety_controller_config),
      (self.callback_set_mode req config).1.flexi_input_ = self.flexi_input_ ∧
      (self.callback_set_mode req config).1.flexi_output_ = self.flexi_output_ ∧
      (self.callback_set_mode req config).2 = true) := by
  refine ⟨run_input ops h _ calls, ?_, fun _ _ => ⟨rfl, fun _ => rfl, rfl⟩,
    fun _ _ _ => ⟨rfl, rfl⟩, fun _ _ _ => ⟨rfl, rfl, rfl⟩⟩
  rw [run_input ops h _ calls]
  cases lastDelivered calls <;> rfl

theorem input_cache_holds_stored_records_witness :
    FlexiInput.size ≤ 10 ∧
    decodeInput (run sampleDoubleOps (Nat.le_refl 10)
      (safety_controller_impl.construct onesStorage) sampleCalls).flexi_input_ =
      (match lastDelivered sampleCalls with
       | none => decodeInput (safety_controller_impl.construct onesStorage).flexi_input_
       | some input => decodeInput (input.asFlexiInput (Nat.le_refl 10))) :=
  ⟨Nat.le_refl 10,
    (input_cache_holds_stored_records sampleDoubleOps (Nat.le_refl 10) onesStorage
      sampleCalls).2.1⟩

/-- C8. Enable defaults: whatever the storage held before, after the constructor
`enable_base` and `enable_torso` read 1 (true), and they still read 1 after any sequence of
`handle_input`, `update` and `callback_set_mode` calls, none of which writes the output
struct. -/
theorem enable_defaults {R : Type} {cap : Nat} (ops : DoubleOps R)
    (h : FlexiInput.size ≤ cap) (prior : safety_controller_impl) (calls : List (Op R cap)) :
    FlexiOutput.get (safety_controller_impl.construct prior).flexi_output_ .enable_base = 1 ∧
    FlexiOutput.get (safety_controller_impl.construct prior).flexi_output_ .enable_torso = 1 ∧
    (decodeOutput (safety_controller_impl.construct prior).flexi_output_).enable_base = true ∧
    (decodeOutput (safety_controller_impl.construct prior).flexi_output_).enable_torso = true ∧
    (run ops h (safety_controller_impl.construct prior) calls).flexi_output_ =
      (safety_controller_impl.construct prior).flexi_output_ ∧
    FlexiOutput.get (run ops h (safety_controller_impl.construct prior) calls).flexi_output_
      .enable_base = 1 ∧
    FlexiOutput.get (run ops h (safety_controller_impl.construct prior) calls).flexi_output_
      .enable_torso = 1 := by
  have hc := construct_enable prior
  refine ⟨hc.1, hc.2, ?_, ?_, run_output ops h _ calls, ?_, ?_⟩
  · show (FlexiOutput.get _ .enable_base != 0) = true
    rw [hc.1]
    rfl
  · show (FlexiOutput.get _ .enable_torso != 0) = true
    rw [hc.2]
    rfl
  · rw [run_output]
    exact hc.1
  · rw [run_output]
    exact hc.2

theorem enable_defaults_witness :
    FlexiInput.size ≤ 10 ∧
    FlexiOutput.get (safety_controller_impl.construct zeroStorage).flexi_output_ .enable_base
      = 1 ∧
    FlexiOutput.get (run sampleDoubleOps (Nat.le_refl 10)
      (safety_controller_impl.construct zeroStorage) sampleCalls).flexi_output_
      .enable_torso = 1 :=
  ⟨Nat.le_refl 10,
    (enable_defaults sampleDoubleOps (Nat.le_refl 10) zeroStorage sampleCalls).1,
    (enable_defaults sampleDoubleOps (Nat.le_refl 10) zeroStorage sampleCalls).2.2.2.2.2.2⟩

/-- C9 (the code at storage filled with `0xFF`). Both `memset` calls fill zero bytes, so
after the constructor every named input signal reads 1, `laser_case` reads 31, the three far
flags read 1 and the reserved bits of byte 1 are still set. -/
theorem construct_does_not_zero :
    (∀ s : InputSignal,
      FlexiInput.get (safety_controller_impl.construct onesStorage).flexi_input_ s = 1) ∧
    FlexiOutput.get (safety_controller_impl.construct onesStorage).flexi_output_ .laser_case
      = 31 ∧
    FlexiOutput.get (safety_controller_impl.construct onesStorage).flexi_output_ .far_front
      = 1 ∧
    FlexiOutput.get (safety_controller_impl.construct onesStorage).flexi_output_ .far_left
      = 1 ∧
    FlexiOutput.get (safety_controller_impl.construct onesStorage).flexi_output_ .far_right
      = 1 ∧
    readByte (safety_controller_impl.construct onesStorage).flexi_output_ 1 = 255 ∧
    (∀ prior : safety_controller_impl,
      (safety_controller_impl.construct prior).flexi_input_ = prior.flexi_input_ ∧
      (∀ f, f ≠ .enable_base → f ≠ .enable_torso →
        FlexiOutput.get (safety_controller_impl.construct prior).flexi_output_ f =
          FlexiOutput.get prior.flexi_output_ f)) := by
  refine ⟨by decide, by decide, by decide, by decide, by decide, by decide, ?_⟩
  intro prior
  refine ⟨construct_input prior, ?_⟩
  intro f h1 h2
  rw [construct_output, FlexiOutput.get_set_other _ _ _ _ (fun e => h2 e.symm),
    FlexiOutput.get_set_other _ _ _ _ (fun e => h1 e.symm)]

end SafetyController

namespace LightApproximation

/-! ## timerCallback: every checked access is in bounds -/

/-! ## The sector width computed in binary32 -/

theorem roundNearestEven_intCast (z : ℤ) : roundNearestEven (z : ℚ) = z := by
  simp [roundNearestEven]

theorem roundNearestEven_bounds (y : ℚ) :
    y - 1 / 2 ≤ (roundNearestEven y : ℚ) ∧ (roundNearestEven y : ℚ) ≤ y + 1 / 2 := by
  have hf := Int.floor_le y
  have hf2 := Int.lt_floor_add_one y
  unfold roundNearestEven
  simp only []
  split_ifs <;> push_cast <;> constructor <;> linarith

theorem roundNearestEven_half (m : ℤ) :
    roundNearestEven (((2 * m + 1 : ℤ) : ℚ) / 2) = if m % 2 = 0 then m else m + 1 := by
  have hfloor : ⌊(((2 * m + 1 : ℤ) : ℚ) / 2)⌋ = m := by
    rw [Int.floor_eq_iff]
    push_cast
    constructor <;> linarith
  unfold roundNearestEven
  simp only [hfloor]
  have hfrac : (((2 * m + 1 : ℤ) : ℚ) / 2) - (m : ℚ) = 1 / 2 := by
    push_cast
    ring
  rw [hfrac]
  simp

theorem log_two_eq (x : ℚ) (t : ℤ) (h1 : (2 : ℚ) ^ t ≤ x) (h2 : x < (2 : ℚ) ^ (t + 1)) :
    Int.log 2 x = t := by
  have hpos : 0 < x := lt_of_lt_of_le (zpow_pos (by norm_num) t) h1
  have ha : t ≤ Int.log 2 x := by
    apply (Int.zpow_le_iff_le_log (b := 2) (by norm_num) hpos).mp
    simpa using h1
  have hb : Int.log 2 x < t + 1 := by
    apply (Int.lt_zpow_iff_log_lt (b := 2) (by norm_num) hpos).mp
    simpa using h2
  omega

theorem log_two_lt (x : ℚ) (t : ℤ) (hpos : 0 < x) (h2 : x < (2 : ℚ) ^ t) :
    Int.log 2 x < t := by
  apply (Int.lt_zpow_iff_log_lt (b := 2) (by norm_num) hpos).mp
  simpa using h2

/-- An integer below `2^24` is a binary32 value: rounding leaves it unchanged. -/
theorem roundFloat_intCast (z : ℤ) (h0 : 0 < z) (h1 : z < 2 ^ 24) :
    roundFloat (z : ℚ) = z := by
  have hpos : (0 : ℚ) < (z : ℚ) := by exact_mod_cast h0
  have hlt : (z : ℚ) < (2 : ℚ) ^ (24 : ℤ) := by
    have : (z : ℚ) < ((2 ^ 24 : ℤ) : ℚ) := by exact_mod_cast h1
    norm_num at this ⊢
    exact this
  have hL : Int.log 2 (z : ℚ) < 24 := log_two_lt _ _ hpos hlt
  obtain ⟨m, hm⟩ : ∃ m : ℕ, (m : ℤ) = 23 - Int.log 2 (z : ℚ) :=
    ⟨(23 - Int.log 2 (z : ℚ)).toNat, Int.toNat_of_nonneg (by omega)⟩
  have he : Int.log 2 (z : ℚ) - 23 = -(m : ℤ) := by omega
  have hne : ((2 : ℚ) ^ m) ≠ 0 := pow_ne_zero _ (by norm_num)
  unfold roundFloat
  rw [if_neg (not_le.mpr hpos)]
  simp only [he, zpow_neg, zpow_natCast]
  have hy : (z : ℚ) / ((2 : ℚ) ^ m)⁻¹ = ((z * 2 ^ m : ℤ) : ℚ) := by
    push_cast
    field_simp
  rw [hy, roundNearestEven_intCast]
  push_cast
  field_simp

/-- Conversion of an integer in `2^24 .. 2^25 - 1`: the spacing of binary32 values is 2. -/
theorem roundFloat_wide (z : ℤ) (h0 : 2 ^ 24 ≤ z) (h1 : z < 2 ^ 25) :
    roundFloat (z : ℚ) = ((2 * roundNearestEven ((z : ℚ) / 2) : ℤ) : ℚ) := by
  have hge : (2 : ℚ) ^ (24 : ℤ) ≤ (z : ℚ) := by
    have : ((2 ^ 24 : ℤ) : ℚ) ≤ (z : ℚ) := by exact_mod_cast h0
    norm_num at this ⊢
    exact this
  have hlt : (z : ℚ) < (2 : ℚ) ^ ((24 : ℤ) + 1) := by
    have : (z : ℚ) < ((2 ^ 25 : ℤ) : ℚ) := by exact_mod_cast h1
    have h25 : (2 : ℚ) ^ ((24 : ℤ) + 1) = ((2 ^ 25 : ℤ) : ℚ) := by norm_num
    rw [h25]
    exact this
  have hpos : (0 : ℚ) < (z : ℚ) := lt_of_lt_of_le (by norm_num) hge
  have hlog := log_two_eq _ _ hge hlt
  unfold roundFloat
  rw [if_neg (not_le.mpr hpos)]
  simp only [hlog]
  norm_num
  ring

/-- The quotient of a positive integer by 58, when it is below `2^19`, rounds to a binary32
value with the same integer part. -/
theorem floor_roundFloat_div (v : ℤ) (h0 : 0 < v) (h1 : v < 58 * 2 ^ 19) :
    ⌊roundFloat ((v : ℚ) / 58)⌋ = v / 58 := by
  have hpos : (0 : ℚ) < (v : ℚ) / 58 := by
    have : (0 : ℚ) < (v : ℚ) := by exact_mod_cast h0
    positivity
  have hlt : (v : ℚ) / 58 < (2 : ℚ) ^ (19 : ℤ) := by
    have : (v : ℚ) < ((58 * 2 ^ 19 : ℤ) : ℚ) := by exact_mod_cast h1
    rw [div_lt_iff₀ (by norm_num)]
    have h2 : (2 : ℚ) ^ (19 : ℤ) * 58 = ((58 * 2 ^ 19 : ℤ) : ℚ) := by norm_num
    rw [h2]
    exact this
  have hL : Int.log 2 ((v : ℚ) / 58) < 19 := log_two_lt _ _ hpos hlt
  obtain ⟨m, hm⟩ : ∃ m : ℕ, (m : ℤ) = 23 - Int.log 2 ((v : ℚ) / 58) :=
    ⟨(23 - Int.log 2 ((v : ℚ) / 58)).toNat, Int.toNat_of_nonneg (by omega)⟩
  have hm5 : 5 ≤ m := by omega
  have he : Int.log 2 ((v : ℚ) / 58) - 23 = -(m : ℤ) := by omega
  -- the scale `c = 2^m` is at least 32
  have hc32 : (32 : ℚ) ≤ (2 : ℚ) ^ m := by
    have : (2 : ℚ) ^ 5 ≤ (2 : ℚ) ^ m := pow_le_pow_right₀ (by norm_num) hm5
    norm_num at this
    exact this
  have hcpos : (0 : ℚ) < (2 : ℚ) ^ m := by positivity
  unfold roundFloat
  rw [if_neg (not_le.mpr hpos)]
  simp only [he, zpow_neg, zpow_natCast]
  have hy : (v : ℚ) / 58 / ((2 : ℚ) ^ m)⁻¹ = (v : ℚ) * (2 : ℚ) ^ m / 58 := by
    field_simp
  rw [hy]
  obtain ⟨hlo, hhi⟩ := roundNearestEven_bounds ((v : ℚ) * (2 : ℚ) ^ m / 58)
  generalize roundNearestEven ((v : ℚ) * (2 : ℚ) ^ m / 58) = M at hlo hhi
  -- v = 58 k + r
  have hk : v = 58 * (v / 58) + v % 58 := (Int.ediv_add_emod v 58).symm
  have hr0 : 0 ≤ v % 58 := Int.emod_nonneg v (by norm_num)
  have hr1 : v % 58 < 58 := Int.emod_lt_of_pos v (by norm_num)
  generalize v / 58 = k at hk
  generalize v % 58 = r at hk hr0 hr1
  have hr0q : (0 : ℚ) ≤ (r : ℚ) := by exact_mod_cast hr0
  have hr1q : (r : ℚ) ≤ 57 := by
    have : r ≤ 57 := by omega
    exact_mod_cast this
  have hvq : (v : ℚ) = 58 * (k : ℚ) + (r : ℚ) := by exact_mod_cast hk
  rw [hvq] at hlo hhi
  have hyk : (58 * (k : ℚ) + (r : ℚ)) * (2 : ℚ) ^ m / 58 =
      (k : ℚ) * (2 : ℚ) ^ m + (r : ℚ) * (2 : ℚ) ^ m / 58 := by
    field_simp
    ring
  rw [hyk] at hlo hhi
  have hrc0 : (0 : ℚ) ≤ (r : ℚ) * (2 : ℚ) ^ m / 58 := by positivity
  have hrc1 : (r : ℚ) * (2 : ℚ) ^ m / 58 ≤ 57 * (2 : ℚ) ^ m / 58 := by
    apply div_le_div_of_nonneg_right _ (by norm_num)
    exact mul_le_mul_of_nonneg_right hr1q hcpos.le
  -- lower bound in the integers: k * 2^m ≤ M
  have hlow : k * 2 ^ m ≤ M := by
    have hq : ((k * 2 ^ m - 1 : ℤ) : ℚ) < (M : ℚ) := by
      push_cast
      linarith
    have : k * 2 ^ m - 1 < M := by exact_mod_cast hq
    omega
  have hlowq : (k : ℚ) * (2 : ℚ) ^ m ≤ (M : ℚ) := by exact_mod_cast hlow
  rw [Int.floor_eq_iff]
  constructor
  · rw [le_mul_inv_iff₀ hcpos]
    exact hlowq
  · rw [mul_inv_lt_iff₀ hcpos]
    have : (M : ℚ) < ((k : ℚ) + 1) * (2 : ℚ) ^ m := by
      nlinarith
    exact this

theorem roundFloat_zero : roundFloat 0 = 0 := by
  simp [roundFloat]

theorem roundFloat_58 : roundFloat ((NUM_LEDS : ℤ) : ℚ) = 58 := by
  have h := roundFloat_intCast 58 (by norm_num) (by norm_num)
  simpa [NUM_LEDS] using h

/-- The value of `(float)n` for `2^24 ≤ n < 2^25`, as an integer: `n` when `n` is even,
otherwise the neighbour `n - 1` or `n + 1` that is a multiple of 4. -/
theorem roundFloat_wide_value (z : ℤ) (h0 : 2 ^ 24 ≤ z) (h1 : z < 2 ^ 25) :
    roundFloat (z : ℚ) =
      ((if z % 2 = 0 then z else if z % 4 = 1 then z - 1 else z + 1 : ℤ) : ℚ) := by
  rw [roundFloat_wide z h0 h1]
  congr 1
  by_cases hz : z % 2 = 0
  · rw [if_pos hz]
    obtain ⟨m, rfl⟩ : ∃ m, z = 2 * m := ⟨z / 2, by omega⟩
    have : ((2 * m : ℤ) : ℚ) / 2 = ((m : ℤ) : ℚ) := by
      push_cast
      ring
    rw [this, roundNearestEven_intCast]
  · rw [if_neg hz]
    obtain ⟨m, rfl⟩ : ∃ m, z = 2 * m + 1 := ⟨z / 2, by omega⟩
    rw [roundNearestEven_half]
    by_cases hm : m % 2 = 0
    · rw [if_pos hm, if_pos (by omega)]
      omega
    · rw [if_neg hm, if_neg (by omega)]
      omega

/-- Below 16777311 ranges the width computed in binary32 is the exact quotient. -/
theorem sectorWidth_eq (n : Nat) (h : n < 16777311) : sectorWidth n = (n : ℤ) / 58 := by
  unfold sectorWidth
  rw [roundFloat_58]
  rcases Nat.eq_zero_or_pos n with h0 | hpos
  · subst h0
    simp [roundFloat_zero]
  · by_cases hsmall : n < 2 ^ 24
    · have hz := roundFloat_intCast (n : ℤ) (by exact_mod_cast hpos) (by exact_mod_cast hsmall)
      rw [Int.cast_natCast] at hz
      rw [hz]
      have := floor_roundFloat_div (n : ℤ) (by exact_mod_cast hpos) (by omega)
      rw [Int.cast_natCast] at this
      exact this
    · have hz := roundFloat_wide_value (n : ℤ) (by omega) (by omega)
      rw [Int.cast_natCast] at hz
      rw [hz]
      rw [floor_roundFloat_div _ (by split_ifs <;> omega) (by split_ifs <;> omega)]
      split_ifs <;> omega

/-- At 16777311 ranges `(float)n` is 16777312 and the width is 289264, one more than the
exact quotient 289263. -/
theorem sectorWidth_16777311 : sectorWidth 16777311 = 289264 := by
  unfold sectorWidth
  rw [roundFloat_58]
  have hz := roundFloat_wide_value (16777311 : ℤ) (by norm_num) (by norm_num)
  have hn : ((16777311 : ℕ) : ℚ) = ((16777311 : ℤ) : ℚ) := by norm_num
  rw [hn, hz]
  have hq : (((if (16777311 : ℤ) % 2 = 0 then (16777311 : ℤ)
      else if (16777311 : ℤ) % 4 = 1 then 16777311 - 1 else 16777311 + 1 : ℤ) : ℚ)) / 58 =
      ((289264 : ℤ) : ℚ) := by
    norm_num
  rw [hq, roundFloat_intCast 289264 (by norm_num) (by norm_num), Int.floor_intCast]

/-! ## timerCallback: the loops -/

theorem mem_forRange (lo hi j : Int) : j ∈ forRange lo hi ↔ lo ≤ j ∧ j < hi := by
  unfold forRange
  simp only [List.mem_map, List.mem_range]
  constructor
  · rintro ⟨k, hk, rfl⟩
    have hk2 : (k : Int) < hi - lo := Int.lt_toNat.mp hk
    have hk0 : (0 : Int) ≤ (k : Int) := Int.ofNat_nonneg k
    constructor <;> omega
  · intro h
    have hnn : (0 : Int) ≤ j - lo := by omega
    have hcast : ((j - lo).toNat : Int) = j - lo := Int.toNat_of_nonneg hnn
    refine ⟨(j - lo).toNat, ?_, ?_⟩
    · apply Int.lt_toNat.mpr
      rw [hcast]
      omega
    · rw [hcast]
      omega

/-- A property kept by every pass of a loop body holds after the loop. -/
theorem foldl_invariant {α β : Type} (P : β → Prop) (Q : α → Prop) (f : β → α → β)
    (hstep : ∀ b a, P b → Q a → P (f b a)) :
    ∀ (l : List α) (b : β), (∀ a ∈ l, Q a) → P b → P (l.foldl f b) := by
  intro l
  induction l with
  | nil => intro b _ hb; exact hb
  | cons a l ih =>
    intro b hl hb
    rw [List.foldl_cons]
    exact ih (f b a) (fun x hx => hl x (List.mem_cons_of_mem a hx))
      (hstep b a hb (hl a (List.mem_cons_self a l)))

/-- Below 16777311 ranges the loop bounds of sector `i` lie inside the scan: the products
computed in `int` are between 0 and the scan length. -/
theorem sector_bounds (n : Nat) (hn : n < 16777311) (i : Int) (h0 : 0 ≤ i)
    (h1 : i < NUM_LEDS) :
    0 ≤ i * sectorWidth n ∧ i * sectorWidth n ≤ (i + 1) * sectorWidth n ∧
    (i + 1) * sectorWidth n ≤ (n : Int) := by
  rw [sectorWidth_eq n hn]
  unfold NUM_LEDS at *
  have hw0 : 0 ≤ (n : Int) / 58 := Int.ediv_nonneg (Int.ofNat_nonneg n) (by decide)
  have hw1 : 58 * ((n : Int) / 58) ≤ (n : Int) := Int.mul_ediv_self_le (by decide)
  have hw2 : (i + 1) * ((n : Int) / 58) ≤ 58 * ((n : Int) / 58) :=
    Int.mul_le_mul_of_nonneg_right (by omega) hw0
  have hw3 : 0 ≤ i * ((n : Int) / 58) := Int.mul_nonneg h0 hw0
  refine ⟨hw3, ?_, by omega⟩
  have : (i + 1) * ((n : Int) / 58) = i * ((n : Int) / 58) + (n : Int) / 58 := by ring
  omega

theorem innerBody_inv {F C : Type} (ops : FloatOps F C) (ranges : List F) (st : Inner F)
    (j : Int) (hst : st.thrown = false ∧ ∀ a ∈ st.log, a.inBounds ranges.length)
    (hj : 0 ≤ j ∧ j < (ranges.length : Int)) :
    (innerBody ops ranges st j).thrown = false ∧
      ∀ a ∈ (innerBody ops ranges st j).log, a.inBounds ranges.length := by
  obtain ⟨ht, hlog⟩ := hst
  have hin : inRange ranges j = true := by
    unfold inRange
    simp [hj.1, hj.2]
  have hb : (Access.ranges_at j).inBounds ranges.length := hj
  unfold innerBody
  rw [ht, hin]
  simp only [Bool.false_eq_true, if_false, if_true]
  split
  · refine ⟨rfl, ?_⟩
    intro a ha
    simp only [List.mem_append, List.mem_cons, List.mem_singleton, List.not_mem_nil,
      or_false] at ha
    rcases ha with ha | ha | ha
    · exact hlog a ha
    · rw [ha]; exact hb
    · rw [ha]; exact hb
  · refine ⟨rfl, ?_⟩
    intro a ha
    simp only [List.mem_append, List.mem_singleton] at ha
    rcases ha with ha | ha
    · exact hlog a ha
    · rw [ha]; exact hb

theorem sectorBody_ok {F C : Type} (ops : FloatOps F C) (ranges : List F) (w : Int)
    (st : Run F C) (i : Int) (hst : st.ok ranges.length)
    (hi : 0 ≤ i ∧ i < NUM_LEDS)
    (hw : 0 ≤ i * w ∧ (i + 1) * w ≤ (ranges.length : Int)) :
    (sectorBody ops ranges w st i).ok ranges.length := by
  obtain ⟨ht, hs, hc, hlog⟩ := hst
  have hinner := foldl_invariant
    (fun st : Inner F => st.thrown = false ∧ ∀ a ∈ st.log, a.inBounds ranges.length)
    (fun j : Int => 0 ≤ j ∧ j < (ranges.length : Int)) (innerBody ops ranges)
    (fun b a hb ha => innerBody_inv ops ranges b a hb ha)
    (forRange (i * w) ((i + 1) * w)) { log := st.log, sum := ops.max, thrown := false }
    (by
      intro j hj
      rw [mem_forRange] at hj
      omega)
    ⟨rfl, hlog⟩
  have hin : inRange st.sectors i = true := by
    unfold inRange
    simp only [Bool.and_eq_true, decide_eq_true_eq]
    omega
  unfold sectorBody
  rw [ht]
  simp only [Bool.false_eq_true, if_false]
  rw [hinner.1, hin]
  simp only [Bool.false_eq_true, if_false, if_true]
  refine ⟨rfl, ?_, hc, ?_⟩
  · simp only [List.length_set]
    exact hs
  · intro a ha
    simp only [List.mem_append, List.mem_singleton] at ha
    rcases ha with ha | ha
    · exact hinner.2 a ha
    · rw [ha]; exact hi

theorem colorBody_ok {F C : Type} (ops : FloatOps F C) (n : Nat) (st : Run F C) (i : Int)
    (hst : st.ok n) (hi : 0 ≤ i ∧ i < NUM_LEDS) : (colorBody ops st i).ok n := by
  obtain ⟨ht, hs, hc, hlog⟩ := hst
  have hin : inRange st.sectors i = true := by
    unfold inRange
    simp only [Bool.and_eq_true, decide_eq_true_eq]
    omega
  have hinc : inRange st.colors i = true := by
    unfold inRange
    simp only [Bool.and_eq_true, decide_eq_true_eq]
    omega
  have hbs : (Access.sectors_at i).inBounds n := hi
  have hbc : (Access.colors_at i).inBounds n := hi
  unfold colorBody
  rw [ht]
  simp only [Bool.false_eq_true, if_false]
  by_cases h0 : i = 0
  · rw [if_pos h0, hin, hinc]
    simp only [if_true]
    refine ⟨rfl, hs, ?_, ?_⟩
    · simp only [List.length_set]
      exact hc
    · intro a ha
      simp only [List.mem_append, List.mem_cons, List.mem_singleton, List.not_mem_nil,
        or_false] at ha
      rcases ha with ha | ha | ha
      · exact hlog a ha
      · rw [ha]; exact hbs
      · rw [ha]; exact hbc
  · have hin1 : inRange st.sectors (i - 1) = true := by
      unfold inRange
      simp only [Bool.and_eq_true, decide_eq_true_eq]
      omega
    have hbs1 : (Access.sectors_at (i - 1)).inBounds n := by
      show 0 ≤ i - 1 ∧ i - 1 < NUM_LEDS
      omega
    rw [if_neg h0, hin, hin1, hinc]
    simp only [if_true]
    refine ⟨rfl, hs, ?_, ?_⟩
    · simp only [List.length_set]
      exact hc
    · intro a ha
      simp only [List.mem_append, List.mem_cons, List.mem_singleton, List.not_mem_nil,
        or_false] at ha
      rcases ha with ha | ha | ha | ha
      · exact hlog a ha
      · rw [ha]; exact hbs
      · rw [ha]; exact hbs1
      · rw [ha]; exact hbc

end LightApproximation

namespace LightApproximation

theorem start_ok {F C : Type} (ops : FloatOps F C) (n : Nat) (colors : List C)
    (hc : colors.length = 58) :
    (Run.start ops colors).ok n := by
  refine ⟨rfl, ?_, ?_, ?_⟩
  · simp [Run.start, NUM_LEDS]
  · simp [Run.start, NUM_LEDS, hc]
  · intro a ha
    simp [Run.start] at ha

theorem timerCallback_ok {F C : Type} (ops : FloatOps F C) (ranges : List F) (colors : List C)
    (hc : colors.length = 58) (hn : ranges.length < 16777311) :
    (timerCallback ops ranges colors).ok ranges.length := by
  unfold timerCallback timerCallbackWith
  have hrange : ∀ i ∈ forRange 0 NUM_LEDS, 0 ≤ i ∧ i < NUM_LEDS := by
    intro i hi
    exact (mem_forRange 0 NUM_LEDS i).mp hi
  apply foldl_invariant (Run.ok ranges.length) (fun i : Int => 0 ≤ i ∧ i < NUM_LEDS)
    (colorBody ops) (fun b a hb ha => colorBody_ok ops ranges.length b a hb ha) _ _ hrange
  apply foldl_invariant (Run.ok ranges.length) (fun i : Int => 0 ≤ i ∧ i < NUM_LEDS)
    (sectorBody ops ranges (sectorWidth ranges.length)) _ _ _ hrange
    (start_ok ops ranges.length colors hc)
  intro b i hb hi
  have hsb := sector_bounds ranges.length hn i hi.1 hi.2
  exact sectorBody_ok ops ranges _ b i hb hi ⟨hsb.1, hsb.2.2⟩

theorem sectorWidth_short (n : Nat) (h : n < 58) : sectorWidth n = 0 := by
  rw [sectorWidth_eq n (by omega)]
  exact Int.ediv_eq_zero_of_lt (Int.ofNat_nonneg n) (by omega)

theorem sectorBody_zero {F C : Type} (ops : FloatOps F C) (ranges : List F) (st : Run F C)
    (i : Int) (ht : st.thrown = false) (hin : inRange st.sectors i = true) :
    sectorBody ops ranges 0 st i =
      { st with log := st.log ++ [.sectors_at i], sectors := st.sectors.set i.toNat ops.max } := by
  have hempty : forRange (i * 0) ((i + 1) * 0) = [] := by
    simp [forRange]
  unfold sectorBody
  rw [ht, hempty]
  simp only [Bool.false_eq_true, if_false, List.foldl_nil, hin, if_true]

theorem sectorLoop_zero_upto {F C : Type} (ops : FloatOps F C) (ranges : List F)
    (colors : List C) (k : Nat) (hk : k ≤ 58) :
    Run.filled ops k (((List.range k).map (fun (j : Nat) => (0 : Int) + (j : Int))).foldl
      (sectorBody ops ranges 0) (Run.start ops colors)) := by
  induction k with
  | zero =>
    refine ⟨rfl, by simp [Run.start, NUM_LEDS], ?_, ?_⟩
    · intro idx hidx
      omega
    · intro a ha
      simp [Run.start] at ha
  | succ k ih =>
    obtain ⟨ht, hlen, hmax, hlog⟩ := ih (by omega)
    rw [List.range_succ, List.map_append, List.foldl_append]
    simp only [List.map_cons, List.map_nil, List.foldl_cons, List.foldl_nil]
    have hin : inRange (((List.range k).map (fun (j : Nat) => (0 : Int) + (j : Int))).foldl
        (sectorBody ops ranges 0) (Run.start ops colors)).sectors ((0 : Int) + (k : Int))
        = true := by
      unfold inRange
      simp only [Bool.and_eq_true, decide_eq_true_eq]
      omega
    rw [sectorBody_zero ops ranges _ _ ht hin]
    have hnat : ((0 : Int) + (k : Int)).toNat = k := by omega
    refine ⟨ht, ?_, ?_, ?_⟩
    · simp only [List.length_set]
      exact hlen
    · intro idx hidx
      simp only [hnat, List.getElem?_set]
      by_cases he : k = idx
      · subst he
        rw [if_pos rfl, if_pos (by omega)]
      · simp only [he, if_false]
        exact hmax idx (by omega)
    · intro a ha
      simp only [List.mem_append, List.mem_singleton] at ha
      rcases ha with ha | ha
      · exact hlog a ha
      · rw [ha]
        rfl

/-- With sector width 0 the first loop reads no range and stores the float maximum in every
sector. -/
theorem sectorLoop_zero {F C : Type} (ops : FloatOps F C) (ranges : List F)
    (colors : List C) :
    ((forRange 0 NUM_LEDS).foldl (sectorBody ops ranges 0) (Run.start ops colors)).sectors =
      List.replicate 58 ops.max ∧
    ∀ a ∈ ((forRange 0 NUM_LEDS).foldl (sectorBody ops ranges 0) (Run.start ops colors)).log,
      a.isRanges = false := by
  obtain ⟨_, hlen, hmax, hlog⟩ := sectorLoop_zero_upto ops ranges colors 58 (Nat.le_refl 58)
  have hfr : forRange 0 NUM_LEDS = (List.range 58).map (fun (j : Nat) => (0 : Int) + (j : Int)) :=
    rfl
  rw [hfr]
  refine ⟨?_, hlog⟩
  apply List.ext_getElem?
  intro idx
  by_cases hidx : idx < 58
  · rw [hmax idx hidx, List.getElem?_replicate_of_lt hidx]
  · rw [List.getElem?_eq_none (by omega), List.getElem?_eq_none (by simp; omega)]

theorem colorBody_sectors {F C : Type} (ops : FloatOps F C) (st : Run F C) (i : Int) :
    (colorBody ops st i).sectors = st.sectors := by
  unfold colorBody
  split_ifs <;> rfl

theorem colorBody_noRanges {F C : Type} (ops : FloatOps F C) (st : Run F C) (i : Int)
    (h : ∀ a ∈ st.log, a.isRanges = false) :
    ∀ a ∈ (colorBody ops st i).log, a.isRanges = false := by
  unfold colorBody
  split_ifs <;> intro a ha
  all_goals first
    | exact h a ha
    | (simp only [List.mem_append, List.mem_cons, List.mem_singleton, List.not_mem_nil,
        or_false] at ha
       rcases ha with ha | ha | ha | ha <;> first | exact h a ha | (rw [ha]; rfl))
    | (simp only [List.mem_append, List.mem_cons, List.mem_singleton, List.not_mem_nil,
        or_false] at ha
       rcases ha with ha | ha | ha <;> first | exact h a ha | (rw [ha]; rfl))
    | (simp only [List.mem_append, List.mem_cons, List.mem_singleton, List.not_mem_nil,
        or_false] at ha
       rcases ha with ha | ha <;> first | exact h a ha | (rw [ha]; rfl))

theorem timerCallback_short {F C : Type} (ops : FloatOps F C) (ranges : List F)
    (colors : List C) (h : ranges.length < 58) :
    (timerCallback ops ranges colors).sectors = List.replicate 58 ops.max ∧
      ∀ a ∈ (timerCallback ops ranges colors).log, a.isRanges = false := by
  unfold timerCallback timerCallbackWith
  rw [sectorWidth_short _ h]
  simp only []
  apply foldl_invariant
    (fun st : Run F C => st.sectors = List.replicate 58 ops.max ∧
      ∀ a ∈ st.log, a.isRanges = false)
    (fun _ : Int => True) (colorBody ops)
  · intro b i hb _
    exact ⟨(colorBody_sectors ops b i).trans hb.1, colorBody_noRanges ops b i hb.2⟩
  · intro a _
    trivial
  · exact sectorLoop_zero ops ranges colors

/-! ## timerCallback: a width too large for the scan -/

theorem innerBody_thrown {F C : Type} (ops : FloatOps F C) (ranges : List F) (st : Inner F)
    (j : Int) (h : st.thrown = true) : innerBody ops ranges st j = st := by
  unfold innerBody
  rw [if_pos h]

theorem innerLoop_thrown {F C : Type} (ops : FloatOps F C) (ranges : List F)
    (l : List Int) (st : Inner F) (h : st.thrown = true) :
    l.foldl (innerBody ops ranges) st = st := by
  induction l with
  | nil => rfl
  | cons a l ih => rw [List.foldl_cons, innerBody_thrown ops ranges st a h, ih]

/-- The inner loop throws when one of its indices fails the bounds check, and that index is
the last one logged. -/
theorem innerLoop_throws {F C : Type} (ops : FloatOps F C) (ranges : List F) (l : List Int) :
    ∀ st : Inner F, st.thrown = false → (∃ j ∈ l, inRange ranges j = false) →
      (l.foldl (innerBody ops ranges) st).thrown = true ∧
      ∃ j ∈ l, inRange ranges j = false ∧
        Access.ranges_at j ∈ (l.foldl (innerBody ops ranges) st).log := by
  induction l with
  | nil =>
    intro st _ hex
    obtain ⟨j, hj, _⟩ := hex
    simp at hj
  | cons a l ih =>
    intro st ht hex
    rw [List.foldl_cons]
    by_cases ha : inRange ranges a = true
    · have hstep : (innerBody ops ranges st a).thrown = false := by
        unfold innerBody
        rw [ht, ha]
        simp only [Bool.false_eq_true, if_false, if_true]
        split <;> rfl
      have hex2 : ∃ j ∈ l, inRange ranges j = false := by
        obtain ⟨j, hj, hjr⟩ := hex
        rcases List.mem_cons.mp hj with rfl | hjl
        · rw [ha] at hjr
          exact absurd hjr (by decide)
        · exact ⟨j, hjl, hjr⟩
      obtain ⟨h1, j, hj, hjr, hlog⟩ := ih _ hstep hex2
      exact ⟨h1, j, List.mem_cons_of_mem a hj, hjr, hlog⟩
    · have haf : inRange ranges a = false := by
        cases hv : inRange ranges a
        · rfl
        · exact absurd hv ha
      have hbody : innerBody ops ranges st a =
          { st with log := st.log ++ [.ranges_at a], thrown := true } := by
        unfold innerBody
        rw [ht, haf]
        simp only [Bool.false_eq_true, if_false]
      rw [hbody, innerLoop_thrown ops ranges l _ rfl]
      refine ⟨rfl, a, List.mem_cons_self a l, haf, ?_⟩
      simp

theorem sectorBody_throws {F C : Type} (ops : FloatOps F C) (ranges : List F) (w : Int)
    (st : Run F C) (i : Int) (ht : st.thrown = false)
    (hex : ∃ j ∈ forRange (i * w) ((i + 1) * w), inRange ranges j = false) :
    (sectorBody ops ranges w st i).thrown = true ∧
    ∃ j ∈ forRange (i * w) ((i + 1) * w), inRange ranges j = false ∧
      Access.ranges_at j ∈ (sectorBody ops ranges w st i).log := by
  obtain ⟨h1, j, hj, hjr, hlog⟩ := innerLoop_throws ops ranges
    (forRange (i * w) ((i + 1) * w)) { log := st.log, sum := ops.max, thrown := false } rfl hex
  unfold sectorBody
  rw [ht]
  simp only [Bool.false_eq_true, if_false]
  rw [h1]
  simp only [if_true]
  exact ⟨trivial, j, hj, hjr, hlog⟩

theorem colorBody_thrown {F C : Type} (ops : FloatOps F C) (st : Run F C) (i : Int)
    (h : st.thrown = true) : colorBody ops st i = st := by
  unfold colorBody
  rw [if_pos h]

theorem colorLoop_thrown {F C : Type} (ops : FloatOps F C) (l : List Int) (st : Run F C)
    (h : st.thrown = true) : l.foldl (colorBody ops) st = st := by
  induction l with
  | nil => rfl
  | cons a l ih => rw [List.foldl_cons, colorBody_thrown ops st a h, ih]

/-- When 57 sectors of width `w` fit into the scan and 58 do not, the last sector reads past
the end of `ranges` and `timerCallback` leaves by `std::out_of_range`. -/
theorem timerCallbackWith_throws {F C : Type} (ops : FloatOps F C) (ranges : List F)
    (colors : List C) (w : Int) (hc : colors.length = 58) (hw : 0 ≤ w)
    (h57 : 57 * w ≤ (ranges.length : Int)) (h58 : (ranges.length : Int) < 58 * w) :
    (timerCallbackWith ops ranges colors w).thrown = true ∧
    ∃ j, (ranges.length : Int) ≤ j ∧ j < 58 * w ∧
      Access.ranges_at j ∈ (timerCallbackWith ops ranges colors w).log := by
  have hsplit : forRange 0 NUM_LEDS = forRange 0 57 ++ [57] := by decide
  have hok : Run.ok ranges.length
      ((forRange 0 57).foldl (sectorBody ops ranges w) (Run.start ops colors)) := by
    apply foldl_invariant (Run.ok ranges.length) (fun i : Int => 0 ≤ i ∧ i < 57)
      (sectorBody ops ranges w) _ _ _
      (fun i hi => (mem_forRange 0 57 i).mp hi) (start_ok ops ranges.length colors hc)
    intro b i hb hi
    have h1 : 0 ≤ i * w := Int.mul_nonneg hi.1 hw
    have h2 : (i + 1) * w ≤ 57 * w := Int.mul_le_mul_of_nonneg_right (by omega) hw
    exact sectorBody_ok ops ranges w b i hb ⟨hi.1, by unfold NUM_LEDS; omega⟩
      ⟨h1, by omega⟩
  have hex : ∃ j ∈ forRange (57 * w) ((57 + 1) * w), inRange ranges j = false := by
    refine ⟨(ranges.length : Int), ?_, ?_⟩
    · rw [mem_forRange]
      constructor <;> omega
    · unfold inRange
      simp
  obtain ⟨h1, j, hj, hjr, hlog⟩ := sectorBody_throws ops ranges w _ 57 hok.1 hex
  have hsec : (forRange 0 NUM_LEDS).foldl (sectorBody ops ranges w) (Run.start ops colors) =
      sectorBody ops ranges w
        ((forRange 0 57).foldl (sectorBody ops ranges w) (Run.start ops colors)) 57 := by
    rw [hsplit, List.foldl_append]
    simp only [List.foldl_cons, List.foldl_nil]
  unfold timerCallbackWith
  simp only []
  rw [hsec, colorLoop_thrown ops _ _ h1]
  refine ⟨h1, j, ?_, ?_, hlog⟩
  · unfold inRange at hjr
    rw [mem_forRange] at hj
    simp only [Bool.and_eq_false_iff, decide_eq_false_iff_not, not_le, not_lt] at hjr
    have : 0 ≤ 57 * w := Int.mul_nonneg (by decide) hw
    omega
  · rw [mem_forRange] at hj
    omega

theorem longRanges_length : longRanges.length = 16777311 := by
  unfold longRanges
  exact List.length_replicate _ _

/-! ## Claim about timerCallback -/

/-- C10 (as stated, refuted). For a scan of 16777311 ranges and `mode_msg.colors` of 58
elements, `(float)n` is 16777312, the width `(int)sector_size` is 289264, and sector 57 passes
the index 16777311 to `ranges.at`, which is not below the length: `timerCallback` leaves by
`std::out_of_range`. -/
theorem timerCallback_out_of_range_counterexample :
    longRanges.length = 16777311 ∧ sampleColors.length = 58 ∧
    sectorWidth longRanges.length = 289264 ∧
    (timerCallback sampleFloatOps longRanges sampleColors).thrown = true ∧
    Access.ranges_at 16777311 ∈ (timerCallback sampleFloatOps longRanges sampleColors).log ∧
    ¬ ((16777311 : Int) < (longRanges.length : Int)) := by
  have hlen := longRanges_length
  have hw : sectorWidth longRanges.length = 289264 := by
    rw [hlen]
    exact sectorWidth_16777311
  have hlenz : (longRanges.length : Int) = 16777311 := by
    rw [hlen]
    rfl
  obtain ⟨ht, j, hj1, hj2, hjlog⟩ := timerCallbackWith_throws sampleFloatOps longRanges
    sampleColors 289264 rfl (by decide) (by rw [hlenz]; decide) (by rw [hlenz]; decide)
  have hj : j = 16777311 := by omega
  rw [hj] at hjlog
  refine ⟨hlen, rfl, hw, ?_, ?_, by rw [hlenz]; decide⟩
  · unfold timerCallback
    rw [hw]
    exact ht
  · unfold timerCallback
    rw [hw]
    exact hjlog

/-- C10 (amended). Sector indexing stays in bounds for scans of fewer than 16777311 ranges:
with `mode_msg.colors` of 58 elements the width `(int)sector_size` is `n / 58`,
`timerCallback` throws no `std::out_of_range`, every index passed to `ranges.at` is in
`0 .. n - 1`, every index passed to `sectors.at` and `mode_msg.colors.at` is in `0 .. 57`;
and when `n < 58` no range is read and every sector value is the float maximum. -/
theorem timerCallback_in_bounds {F C : Type} (ops : FloatOps F C) (ranges : List F)
    (colors : List C) (hc : colors.length = 58) (hn : ranges.length < 16777311) :
    sectorWidth ranges.length = (ranges.length : Int) / 58 ∧
    (timerCallback ops ranges colors).thrown = false ∧
    (∀ j, Access.ranges_at j ∈ (timerCallback ops ranges colors).log →
      0 ≤ j ∧ j < (ranges.length : Int)) ∧
    (∀ i, Access.sectors_at i ∈ (timerCallback ops ranges colors).log → 0 ≤ i ∧ i < 58) ∧
    (∀ i, Access.colors_at i ∈ (timerCallback ops ranges colors).log → 0 ≤ i ∧ i < 58) ∧
    (ranges.length < 58 →
      (∀ j, Access.ranges_at j ∉ (timerCallback ops ranges colors).log) ∧
      (timerCallback ops ranges colors).sectors = List.replicate 58 ops.max) := by
  have hok := timerCallback_ok ops ranges colors hc hn
  refine ⟨sectorWidth_eq _ hn, hok.1, fun j hj => hok.2.2.2 _ hj, fun i hi => hok.2.2.2 _ hi,
    fun i hi => hok.2.2.2 _ hi, ?_⟩
  intro hshort
  have hs := timerCallback_short ops ranges colors hshort
  refine ⟨?_, hs.1⟩
  intro j hj
  have := hs.2 _ hj
  simp [Access.isRanges] at this

theorem timerCallback_in_bounds_witness :
    sampleColors.length = 58 ∧ sampleRanges.length < 16777311 ∧
    (timerCallback sampleFloatOps sampleRanges sampleColors).thrown = false ∧
    (∀ j, Access.ranges_at j ∈ (timerCallback sampleFloatOps sampleRanges sampleColors).log →
      0 ≤ j ∧ j < (sampleRanges.length : Int)) :=
  ⟨rfl, by decide,
    (timerCallback_in_bounds sampleFloatOps sampleRanges sampleColors rfl (by decide)).2.1,
    (timerCallback_in_bounds sampleFloatOps sampleRanges sampleColors rfl (by decide)).2.2.1⟩

set_option maxRecDepth 100000

/-- The model does throw when the width is too large for the scan: with 57 ranges and a
width forced to 1, the access `ranges.at(57)` is out of range. -/
theorem timerCallbackWith_can_throw :
    (timerCallbackWith sampleFloatOps shortRanges sampleColors 1).thrown = true ∧
    (timerCallbackWith sampleFloatOps shortRanges sampleColors 1).log.getLast? =
      some (Access.ranges_at 57) := by
  decide

end LightApproximation
